import Mathlib

/-!
  Shallow embedding of the prompt-generation pipeline of the
  biography-video-prompt-generator repository, together with proofs that
  settle the frozen claims C1..C10 about its specification.

  Sources embedded (faithfully, function by function):
  * src/processing/text_processor.py   (TextProcessor)
  * src/processing/similarity.py       (SimilarityCalculator, incl. the
    difflib.SequenceMatcher ratio it calls)
  * src/processing/prompt_quality.py   (PromptQualityManager)
  * src/utils/retry_handler.py         (RetryHandler)
  * src/processing/story_processor.py  (StoryProcessor)
  * src/processing/prompt_templates.py (PromptTemplates)
  * src/config.py                      (Settings)

  Python floats are modelled as rationals; Python `int()` truncation as
  truncation toward zero; file-system state (the `.partial.json` checkpoint)
  as an explicit `Option Metadata` value threaded through `process_file`.
-/

/-! ## Basic character and string operations mirroring Python semantics -/

/-- Python regex `\s` over ASCII: space, tab, newline, carriage return,
form feed, vertical tab. -/
def pySpace (c : Char) : Bool :=
  c = ' ' || c = '\t' || c = '\n' || c = '\x0d' || c = '\x0c' || c = '\x0b'

/-- Python regex `\w` over ASCII: letters, digits and underscore. -/
def pyWordChar (c : Char) : Bool :=
  (('a' ≤ c && c ≤ 'z') || ('A' ≤ c && c ≤ 'Z') || ('0' ≤ c && c ≤ '9') || c = '_')

/-- Splits a character list into the maximal runs of characters satisfying
`keep`, dropping the separators; `acc` is the current run, reversed. -/
def splitRunsAux (keep : Char → Bool) : List Char → List Char → List (List Char)
  | [], acc => if acc.isEmpty then [] else [acc.reverse]
  | c :: cs, acc =>
      if keep c then splitRunsAux keep cs (c :: acc)
      else if acc.isEmpty then splitRunsAux keep cs []
      else acc.reverse :: splitRunsAux keep cs []

def splitRuns (keep : Char → Bool) (l : List Char) : List (List Char) :=
  splitRunsAux keep l []

/-- `re.findall(r'\S+', text)`: the maximal whitespace-free runs of `text`. -/
def splitWS (s : String) : List String :=
  (splitRuns (fun c => !pySpace c) s.data).map String.mk

/-- `re.findall(r'\w+', text)` (equivalently `\b\w+\b`): maximal word-character runs. -/
def wordRuns (s : String) : List String :=
  (splitRuns pyWordChar s.data).map String.mk

/-- Python `' '.join(l)`. -/
def joinSpace : List String → String
  | [] => ""
  | [t] => t
  | t :: ts => t ++ " " ++ joinSpace ts

/-- Python `s.lower()` (ASCII). -/
def lowerStr (s : String) : String := String.mk (s.data.map Char.toLower)

/-- Whether the character list `pat` occurs as a contiguous sublist of `hay`
(Python `pat in hay` on strings). -/
def subOccursL (pat hay : List Char) : Bool :=
  match hay with
  | [] => pat.isEmpty
  | _ :: t => pat.isPrefixOf hay || subOccursL pat t

def subOccurs (pat hay : String) : Bool := subOccursL pat.data hay.data

/-! ## TextProcessor (src/processing/text_processor.py) -/

/-- `TextProcessor.count_words`: `len(re.findall(r'\b\w+\b', text))`. -/
def count_words (text : String) : Nat := (wordRuns text).length

/-- The chunk-accumulation loop of `TextProcessor.split_into_chunks`:
append each word to the current chunk, flushing whenever the running count
reaches `chunkSize`; a non-empty final partial chunk is kept. -/
def chunkLoop (chunkSize : Nat) : List String → List String → Nat → List (List String)
  | [], cur, _ => if cur.isEmpty then [] else [cur]
  | w :: ws, cur, cnt =>
      let cur' := cur ++ [w]
      let cnt' := cnt + 1
      if chunkSize ≤ cnt' then cur' :: chunkLoop chunkSize ws [] 0
      else chunkLoop chunkSize ws cur' cnt'

/-- `TextProcessor.split_into_chunks`: split on whitespace, fail on empty
token list, otherwise group into chunks of `chunkSize` words re-joined with
single spaces. -/
def split_into_chunks (chunkSize : Nat) (text : String) : Except String (List String) :=
  let words := splitWS text
  if words.isEmpty then .error "No words found in text"
  else .ok ((chunkLoop chunkSize words [] 0).map joinSpace)

/-- Python `int(q)`: truncation toward zero. -/
def pyInt (q : ℚ) : Int := if 0 ≤ q then ⌊q⌋ else -⌊-q⌋

structure Timeline where
  totalWordCount : Nat
  narrationSpeedWpm : Nat
  totalDurationSeconds : ℚ
  totalDurationMinutes : ℚ
  frameIntervalSeconds : ℚ
  totalPrompts : Int
  wordsPerPrompt : ℚ
  deriving DecidableEq

/-- `TextProcessor.calculate_timeline`. -/
def calculate_timeline (wordCount : Nat) (wpm : Nat) (frameInterval : ℚ) : Timeline :=
  let totalMinutes : ℚ := (wordCount : ℚ) / (wpm : ℚ)
  let totalSeconds : ℚ := totalMinutes * 60
  let raw : Int := pyInt (totalSeconds / frameInterval)
  let totalPrompts : Int := if raw < 1 then 1 else raw
  { totalWordCount := wordCount
    narrationSpeedWpm := wpm
    totalDurationSeconds := totalSeconds
    totalDurationMinutes := totalMinutes
    frameIntervalSeconds := frameInterval
    totalPrompts := totalPrompts
    wordsPerPrompt := if totalPrompts > 0 then (wordCount : ℚ) / (totalPrompts : ℚ)
      else (wordCount : ℚ) }

/-! ## Lemmas about run splitting (tokenization) -/

theorem splitRunsAux_tokens (keep : Char → Bool) :
    ∀ (l acc : List Char), (∀ c ∈ acc, keep c) →
      ∀ t ∈ splitRunsAux keep l acc, t ≠ [] ∧ ∀ c ∈ t, keep c := by
  intro l
  induction l with
  | nil =>
      intro acc hacc t ht
      unfold splitRunsAux at ht
      by_cases h : acc.isEmpty
      · simp [h] at ht
      · simp [h] at ht
        subst ht
        refine ⟨?_, ?_⟩
        · simp [List.isEmpty_iff] at h
          simpa using h
        · intro c hc
          exact hacc c (by simpa using hc)
  | cons a as ih =>
      intro acc hacc t ht
      unfold splitRunsAux at ht
      by_cases hk : keep a
      · simp only [hk, if_pos] at ht
        refine ih (a :: acc) ?_ t ht
        intro c hc
        rcases List.mem_cons.mp hc with rfl | hmem
        · exact hk
        · exact hacc c hmem
      · simp only [hk] at ht
        by_cases he : acc.isEmpty
        · simp [he] at ht
          exact ih [] (by simp) t ht
        · simp [he] at ht
          rcases ht with ht | ht
          · subst ht
            refine ⟨?_, ?_⟩
            · simp [List.isEmpty_iff] at he
              simpa using he
            · intro c hc
              exact hacc c (by simpa using hc)
          · exact ih [] (by simp) t ht

theorem splitRunsAux_append_run (keep : Char → Bool) :
    ∀ (tok l acc : List Char), (∀ c ∈ tok, keep c) →
      splitRunsAux keep (tok ++ l) acc = splitRunsAux keep l (tok.reverse ++ acc) := by
  intro tok
  induction tok with
  | nil => intro l acc _; simp
  | cons c cs ih =>
      intro l acc htok
      have hc : keep c = true := htok c (by simp)
      have : splitRunsAux keep ((c :: cs) ++ l) acc = splitRunsAux keep (cs ++ l) (c :: acc) := by
        simp [splitRunsAux, hc]
      rw [this, ih l (c :: acc) (fun x hx => htok x (by simp [hx]))]
      simp

theorem splitRunsAux_sep (keep : Char → Bool) (sep : Char) (hsep : ¬ keep sep) (l acc : List Char) :
    splitRunsAux keep (sep :: l) acc
      = if acc.isEmpty then splitRunsAux keep l []
        else acc.reverse :: splitRunsAux keep l [] := by
  simp [splitRunsAux, hsep]

/-- Character-level join with a single separator, mirroring `' '.join`. -/
def joinChars (sep : Char) : List (List Char) → List Char
  | [] => []
  | [t] => t
  | t :: ts => t ++ sep :: joinChars sep ts

theorem splitRuns_joinChars (keep : Char → Bool) (sep : Char) (hsep : ¬ keep sep) :
    ∀ tss : List (List Char), (∀ t ∈ tss, t ≠ [] ∧ ∀ c ∈ t, keep c) →
      splitRuns keep (joinChars sep tss) = tss := by
  intro tss
  induction tss with
  | nil => intro _; rfl
  | cons t ts ih =>
      intro h
      have ht := h t (by simp)
      have htke : ∀ c ∈ t, keep c := ht.2
      have htne : t ≠ [] := ht.1
      cases ts with
      | nil =>
          show splitRunsAux keep (joinChars sep [t]) [] = [t]
          have : joinChars sep [t] = t ++ [] := by simp [joinChars]
          rw [this, splitRunsAux_append_run keep t [] [] htke]
          unfold splitRunsAux
          simp [List.isEmpty_iff, htne]
      | cons t' ts' =>
          show splitRunsAux keep (joinChars sep (t :: t' :: ts')) [] = t :: t' :: ts'
          have : joinChars sep (t :: t' :: ts') = t ++ sep :: joinChars sep (t' :: ts') := by
            simp [joinChars]
          rw [this, splitRunsAux_append_run keep t _ [] htke,
              splitRunsAux_sep keep sep hsep]
          have hne : (t.reverse ++ ([] : List Char)).isEmpty = false := by
            simp [List.isEmpty_iff, htne]
          have hrec := ih (fun x hx => h x (by simp [hx]))
          simp only [splitRuns] at hrec
          simp [hne, hrec, htne]

theorem joinSpace_data : ∀ ts : List String,
    (joinSpace ts).data = joinChars ' ' (ts.map String.data) := by
  intro ts
  induction ts with
  | nil => rfl
  | cons t ts ih =>
      cases ts with
      | nil => rfl
      | cons t' ts' =>
          show (t ++ " " ++ joinSpace (t' :: ts')).data = _
          simp only [String.data_append, ih]
          simp [joinChars]

theorem splitWS_tokens (s : String) :
    ∀ t ∈ splitWS s, t ≠ "" ∧ ∀ c ∈ t.data, ¬ pySpace c := by
  intro t ht
  simp only [splitWS, List.mem_map] at ht
  obtain ⟨tc, htc, rfl⟩ := ht
  have hkt := splitRunsAux_tokens (fun c => !pySpace c) s.data [] (by simp) tc htc
  refine ⟨?_, ?_⟩
  · intro hcon
    have hnil : tc = [] := by
      have := congrArg String.data hcon
      simpa using this
    exact hkt.1 hnil
  · intro c hc
    have hc2 := hkt.2 c (by simpa using hc)
    simpa using hc2

theorem splitWS_joinSpace (ts : List String)
    (h : ∀ t ∈ ts, t ≠ "" ∧ ∀ c ∈ t.data, ¬ pySpace c) :
    splitWS (joinSpace ts) = ts := by
  have key := splitRuns_joinChars (fun c => !pySpace c) ' ' (by simp [pySpace])
      (ts.map String.data) ?_
  · simp only [splitWS, joinSpace_data, key]
    rw [List.map_map]
    have : (String.mk ∘ String.data) = id := by
      funext s; rfl
    simp [this]
  · intro tc htc
    simp only [List.mem_map] at htc
    obtain ⟨t, htmem, rfl⟩ := htc
    have := h t htmem
    constructor
    · intro hcon
      exact this.1 (by cases t; simp_all)
    · intro c hc
      simpa using this.2 c hc

/-! ## Lemmas about the chunking loop -/

theorem chunkLoop_join (k : Nat) :
    ∀ (ws cur : List String) (cnt : Nat), (chunkLoop k ws cur cnt).join = cur ++ ws := by
  intro ws
  induction ws with
  | nil =>
      intro cur cnt
      by_cases h : cur.isEmpty
      · simp [chunkLoop, h, List.isEmpty_iff.mp h]
      · simp [chunkLoop, h]
  | cons w ws ih =>
      intro cur cnt
      show (if k ≤ cnt + 1 then (cur ++ [w]) :: chunkLoop k ws [] 0
            else chunkLoop k ws (cur ++ [w]) (cnt + 1)).join = cur ++ w :: ws
      by_cases h : k ≤ cnt + 1
      · simp [h, ih]
      · simp [h, ih]

theorem chunkLoop_mem_join (k : Nat) (ws cur : List String) (cnt : Nat) :
    ∀ ch ∈ chunkLoop k ws cur cnt, ∀ w ∈ ch, w ∈ cur ++ ws := by
  intro ch hch w hw
  have : w ∈ (chunkLoop k ws cur cnt).join := List.mem_join.mpr ⟨ch, hch, hw⟩
  rwa [chunkLoop_join] at this

theorem chunkLoop_shape (k : Nat) (hk : 1 ≤ k) :
    ∀ (ws cur : List String), cur.length < k → cur ++ ws ≠ [] →
      ∃ body last, chunkLoop k ws cur cur.length = body ++ [last]
        ∧ (∀ ch ∈ body, ch.length = k) ∧ 1 ≤ last.length ∧ last.length ≤ k := by
  intro ws
  induction ws with
  | nil =>
      intro cur hlt hne
      have hcur : cur ≠ [] := by simpa using hne
      refine ⟨[], cur, ?_, by simp, ?_, le_of_lt hlt⟩
      · simp [chunkLoop, List.isEmpty_iff, hcur]
      · simpa [Nat.one_le_iff_ne_zero, List.length_eq_zero] using hcur
  | cons w ws ih =>
      intro cur hlt _
      show (∃ body last,
        (if k ≤ cur.length + 1 then (cur ++ [w]) :: chunkLoop k ws [] 0
         else chunkLoop k ws (cur ++ [w]) (cur.length + 1)) = body ++ [last] ∧ _)
      by_cases hflush : k ≤ cur.length + 1
      · have hkeq : cur.length + 1 = k := by omega
        simp only [hflush, if_pos]
        cases ws with
        | nil =>
            refine ⟨[], cur ++ [w], ?_, by simp, by simp, by simp [hkeq]⟩
            simp [chunkLoop]
        | cons w' ws' =>
            obtain ⟨body, last, heq, hbody, hl1, hl2⟩ :=
              ih [] (by simpa using hk) (by simp)
            refine ⟨(cur ++ [w]) :: body, last, ?_, ?_, hl1, hl2⟩
            · simp only [List.length_nil] at heq
              simp [heq]
            · intro ch hch
              rcases List.mem_cons.mp hch with rfl | hmem
              · simp [hkeq]
              · exact hbody ch hmem
      · have hlt' : (cur ++ [w]).length < k := by simp; omega
        simp only [hflush, if_neg, not_false_iff]
        have := ih (cur ++ [w]) hlt' (by simp)
        simpa using this

/-! ## Claim theorems C6, C7, C9 -/

theorem pyInt_nonneg_floor (q : ℚ) (h : 0 ≤ q) : pyInt q = ⌊q⌋ := by
  simp [pyInt, h]

/-- C6 (confirmed). `calculate_timeline` returns
`duration_seconds = (word_count / wpm) * 60` and
`target_prompt_count = max(1, floor(duration_seconds / frame_interval))`;
in particular words=12000, wpm=150, interval=6 gives target 800 and
words=15000, wpm=120, interval=5 gives target 1500. -/
theorem calculate_timeline_spec (wordCount wpm : Nat) (fi : ℚ)
    (hwpm : 0 < wpm) (hfi : 0 < fi) :
    (calculate_timeline wordCount wpm fi).totalDurationSeconds
        = ((wordCount : ℚ) / (wpm : ℚ)) * 60
  ∧ (calculate_timeline wordCount wpm fi).totalPrompts
        = max 1 ⌊(((wordCount : ℚ) / (wpm : ℚ)) * 60) / fi⌋
  ∧ (calculate_timeline 12000 150 6).totalPrompts = 800
  ∧ (calculate_timeline 15000 120 5).totalPrompts = 1500 := by
  refine ⟨rfl, ?_, by norm_num [calculate_timeline, pyInt],
    by norm_num [calculate_timeline, pyInt]⟩
  show (if pyInt ((((wordCount : ℚ) / (wpm : ℚ)) * 60) / fi) < 1 then 1
        else pyInt ((((wordCount : ℚ) / (wpm : ℚ)) * 60) / fi)) = _
  have hq : (0 : ℚ) ≤ (((wordCount : ℚ) / (wpm : ℚ)) * 60) / fi := by
    apply div_nonneg
    · positivity
    · exact le_of_lt hfi
  rw [pyInt_nonneg_floor _ hq]
  rcases le_or_lt 1 ⌊(((wordCount : ℚ) / (wpm : ℚ)) * 60) / fi⌋ with h | h
  · rw [if_neg (by omega), max_eq_right h]
  · rw [if_pos h, max_eq_left (le_of_lt h)]

theorem calculate_timeline_spec_witness :
    0 < 150 ∧ (0 : ℚ) < 6
  ∧ ((calculate_timeline 7 150 6).totalDurationSeconds = ((7 : ℚ) / (150 : ℚ)) * 60
      ∧ (calculate_timeline 7 150 6).totalPrompts
          = max 1 ⌊(((7 : ℚ) / (150 : ℚ)) * 60) / 6⌋
      ∧ (calculate_timeline 12000 150 6).totalPrompts = 800
      ∧ (calculate_timeline 15000 120 5).totalPrompts = 1500) :=
  ⟨by decide, by norm_num, calculate_timeline_spec 7 150 6 (by decide) (by norm_num)⟩

/-- C9 (confirmed). `count_words` (word-boundary tokens) and
`split_into_chunks` (non-whitespace tokens) disagree on emptiness: on the
pure-punctuation input "!!! ???", `count_words` is 0 — so the timeline
target falls back to its minimum of 1 — while `split_into_chunks`
succeeds with a non-empty chunk list instead of raising the empty-input
error. -/
theorem tokenization_mismatch_spec :
    count_words "!!! ???" = 0
  ∧ split_into_chunks 1000 "!!! ???" = .ok ["!!! ???"]
  ∧ (calculate_timeline (count_words "!!! ???") 150 6).totalPrompts = 1 := by
  have hcw : count_words "!!! ???" = 0 := by decide
  refine ⟨hcw, by rfl, ?_⟩
  rw [hcw]
  norm_num [calculate_timeline, pyInt]

/-- C7 (confirmed). `split_into_chunks` fails with the empty-input error
exactly when the text has no whitespace-delimited token; otherwise the
chunks' concatenated tokens equal the input's tokens in order, every chunk
except the last has exactly `chunk_size` tokens, the last has between 1 and
`chunk_size`; a 5000-token text with chunk_size 1000 yields exactly 5 chunks
of 1000 tokens each. -/
theorem split_into_chunks_spec (k : Nat) (text : String) (hk : 1 ≤ k) :
    (splitWS text = [] → split_into_chunks k text = .error "No words found in text")
  ∧ (splitWS text ≠ [] → ∃ cs, split_into_chunks k text = .ok cs
      ∧ (cs.map splitWS).join = splitWS text
      ∧ (∃ body lastc, cs = body ++ [lastc]
          ∧ (∀ c ∈ body, (splitWS c).length = k)
          ∧ 1 ≤ (splitWS lastc).length ∧ (splitWS lastc).length ≤ k)
      ∧ ((splitWS text).length = 5000 → k = 1000 →
            cs.length = 5 ∧ ∀ c ∈ cs, (splitWS c).length = 1000)) := by
  constructor
  · intro h
    simp [split_into_chunks, h]
  · intro hw
    refine ⟨(chunkLoop k (splitWS text) [] 0).map joinSpace, ?_, ?_⟩
    · simp [split_into_chunks, List.isEmpty_iff, hw]
    · have hrt : ∀ g ∈ chunkLoop k (splitWS text) [] 0, splitWS (joinSpace g) = g := by
        intro g hg
        apply splitWS_joinSpace
        intro t ht
        exact splitWS_tokens text t
          (by simpa using chunkLoop_mem_join k (splitWS text) [] 0 g hg t ht)
      have hmapid : ((chunkLoop k (splitWS text) [] 0).map joinSpace).map splitWS
          = chunkLoop k (splitWS text) [] 0 := by
        rw [List.map_map]
        have := List.map_congr_left (f := splitWS ∘ joinSpace) (g := id) hrt
        simpa using this
      have hjoin : (((chunkLoop k (splitWS text) [] 0).map joinSpace).map splitWS).join
          = splitWS text := by
        rw [hmapid]
        simpa using chunkLoop_join k (splitWS text) [] 0
      obtain ⟨body₀, last₀, heq, hbody₀, hl1, hl2⟩ :=
        chunkLoop_shape k hk (splitWS text) [] (by simpa using hk) (by simpa using hw)
      have heq' : chunkLoop k (splitWS text) [] 0 = body₀ ++ [last₀] := by
        simpa using heq
      refine ⟨hjoin, ?_, ?_⟩
      · refine ⟨body₀.map joinSpace, joinSpace last₀, ?_, ?_, ?_, ?_⟩
        · rw [heq']; simp
        · intro c hc
          simp only [List.mem_map] at hc
          obtain ⟨g, hg, rfl⟩ := hc
          rw [hrt g (by rw [heq']; exact List.mem_append_left _ hg)]
          exact hbody₀ g hg
        · rw [hrt last₀ (by rw [heq']; exact List.mem_append_right _ (by simp))]
          exact hl1
        · rw [hrt last₀ (by rw [heq']; exact List.mem_append_right _ (by simp))]
          exact hl2
      · intro htot hk1000
        subst hk1000
        have hsum : (splitWS text).length = 1000 * body₀.length + last₀.length := by
          rw [← hjoin, hmapid, heq']
          rw [List.length_join]
          have hconst : (body₀ ++ [last₀]).map List.length
              = body₀.map List.length ++ [last₀.length] := by simp
          rw [hconst, List.sum_append]
          have : body₀.map List.length = List.replicate body₀.length 1000 := by
            rw [List.eq_replicate_iff]
            constructor
            · simp
            · intro x hx
              simp only [List.mem_map] at hx
              obtain ⟨g, hg, rfl⟩ := hx
              exact hbody₀ g hg
          rw [this]
          simp [List.sum_replicate, Nat.mul_comm]
        rw [htot] at hsum
        have hlen5 : body₀.length = 4 ∧ last₀.length = 1000 := by omega
        constructor
        · rw [heq']
          simp [hlen5.1]
        · intro c hc
          simp only [heq', List.map_append, List.map_cons, List.map_nil,
            List.mem_append, List.mem_map, List.mem_cons] at hc
          rcases hc with ⟨g, hg, rfl⟩ | hc
          · rw [hrt g (by rw [heq']; exact List.mem_append_left _ hg)]
            exact hbody₀ g hg
          · rcases hc with rfl | hfalse
            · rw [hrt last₀ (by rw [heq']; exact List.mem_append_right _ (by simp))]
              exact hlen5.2
            · exact absurd hfalse (by simp)

theorem split_into_chunks_spec_witness :
    1 ≤ 2
  ∧ ((splitWS "a b c" = [] → split_into_chunks 2 "a b c" = .error "No words found in text")
    ∧ (splitWS "a b c" ≠ [] → ∃ cs, split_into_chunks 2 "a b c" = .ok cs
        ∧ (cs.map splitWS).join = splitWS "a b c"
        ∧ (∃ body lastc, cs = body ++ [lastc]
            ∧ (∀ c ∈ body, (splitWS c).length = 2)
            ∧ 1 ≤ (splitWS lastc).length ∧ (splitWS lastc).length ≤ 2)
        ∧ ((splitWS "a b c").length = 5000 → 2 = 1000 →
              cs.length = 5 ∧ ∀ c ∈ cs, (splitWS c).length = 1000))) :=
  ⟨by decide, split_into_chunks_spec 2 "a b c" (by decide)⟩

/-! ## PromptQualityManager (src/processing/prompt_quality.py) -/

/-- The consecutive-duplicate-removal loop of `enhance_prompt`: a word is
kept when its lowercase form differs from the lowercase form of the
immediately preceding input word (`prev_word`, `None` at the start); the
cursor is updated to the current word's lowercase form in both cases. -/
def removeConsecDupsAux : List String → Option String → List String
  | [], _ => []
  | w :: ws, prev =>
      let rest := removeConsecDupsAux ws (some (lowerStr w))
      if some (lowerStr w) = prev then rest else w :: rest

def removeConsecDups (ws : List String) : List String := removeConsecDupsAux ws none

/-- Python `enhanced[0].upper() + enhanced[1:]` (no-op on the empty string). -/
def capFirst (s : String) : String :=
  match s.data with
  | [] => s
  | c :: cs => String.mk (c.toUpper :: cs)

/-- `PromptQualityManager.enhance_prompt`: collapse whitespace, drop
consecutive case-insensitive duplicate words, capitalize the first
character, and append ", highly detailed, cinematic" when neither
"cinematic" nor "detailed" occurs (case-insensitively). -/
def enhance_prompt (enableEnhancement : Bool) (prompt : String) : String :=
  if !enableEnhancement then prompt
  else
    let mid := capFirst (joinSpace (removeConsecDups (splitWS prompt)))
    if !(subOccurs "cinematic" (lowerStr mid)) && !(subOccurs "detailed" (lowerStr mid))
    then mid ++ ", highly detailed, cinematic"
    else mid

def visualKeywords : List String :=
  ["shot", "lighting", "composition", "mood", "atmosphere", "style", "camera"]

def subjectKeywords : List String :=
  ["man", "woman", "person", "character", "figure", "people", "subject"]

def descriptiveKeywords : List String :=
  ["detailed", "cinematic", "professional", "realistic", "atmospheric",
   "dramatic", "vivid", "rich", "intricate", "refined"]

def colorLightingKeywords : List String :=
  ["light", "shadow", "color", "warm", "cool", "bright", "dark",
   "golden", "blue", "red", "green", "illuminated"]

def technicalKeywords : List String :=
  ["8k", "4k", "hd", "uhd", "high quality", "professional"]

def countPresent (kws : List String) (s : String) : Nat :=
  (kws.filter (fun kw => subOccurs kw s)).length

def anyPresent (kws : List String) (s : String) : Bool :=
  kws.any (fun kw => subOccurs kw s)

/-- `PromptQualityManager.score_prompt`: additive heuristic score normalized
against a fixed maximum of 10 points and capped at 1. -/
def score_prompt (prompt : String) : ℚ :=
  let lowp := lowerStr prompt
  let lengthScore : ℚ :=
    if 50 ≤ prompt.length then 1 else if 25 ≤ prompt.length then 1/2 else 0
  let visualScore : ℚ := min 3 ((countPresent visualKeywords lowp : ℚ) * (1/2))
  let subjectScore : ℚ := if anyPresent subjectKeywords lowp then 1 else 0
  let descriptiveScore : ℚ := min 2 ((countPresent descriptiveKeywords lowp : ℚ) * (1/2))
  let colorScore : ℚ := if anyPresent colorLightingKeywords lowp then 1 else 0
  let words := splitWS lowp
  let uniqueRatio : ℚ :=
    if words.isEmpty then 0 else (words.dedup.length : ℚ) / (words.length : ℚ)
  let varietyScore : ℚ :=
    if (7 : ℚ)/10 ≤ uniqueRatio then 1 else if (1 : ℚ)/2 ≤ uniqueRatio then 1/2 else 0
  let technicalScore : ℚ := if anyPresent technicalKeywords lowp then 1 else 0
  min 1 ((lengthScore + visualScore + subjectScore + descriptiveScore
    + colorScore + varietyScore + technicalScore) / 10)

/-! ## Character-case lemmas for the enhancement proofs -/

theorem char_toNat_ofNat_valid (n : Nat) (h : n < 55296) : (Char.ofNat n).toNat = n := by
  have hv : n.isValidChar := Or.inl h
  rw [Char.ofNat, dif_pos hv]
  simp [Char.ofNatAux, Char.toNat, UInt32.ofNat', UInt32.toNat, BitVec.toNat_ofNatLt]

theorem toUpper_toNat_lower (c : Char) (h : 97 ≤ c.toNat ∧ c.toNat ≤ 122) :
    c.toUpper.toNat = c.toNat - 32 := by
  rw [Char.toUpper]
  simp only [ge_iff_le, h.1, h.2, and_self, if_pos]
  exact char_toNat_ofNat_valid _ (by omega)

theorem toUpper_eq_self (c : Char) (h : ¬ (97 ≤ c.toNat ∧ c.toNat ≤ 122)) :
    c.toUpper = c := by
  rw [Char.toUpper]
  simp only [ge_iff_le]
  rw [if_neg h]

theorem toUpper_toUpper (c : Char) : c.toUpper.toUpper = c.toUpper := by
  by_cases h : 97 ≤ c.toNat ∧ c.toNat ≤ 122
  · have h2 := toUpper_toNat_lower c h
    apply toUpper_eq_self
    omega
  · rw [toUpper_eq_self c h, toUpper_eq_self c h]

theorem toLower_toUpper (c : Char) : c.toUpper.toLower = c.toLower := by
  by_cases h : 97 ≤ c.toNat ∧ c.toNat ≤ 122
  · have h2 := toUpper_toNat_lower c h
    have hup : c.toUpper.toLower = Char.ofNat (c.toUpper.toNat + 32) := by
      rw [Char.toLower]
      simp only [ge_iff_le]
      rw [if_pos (by omega)]
    have hlo : c.toLower = c := by
      rw [Char.toLower]
      simp only [ge_iff_le]
      rw [if_neg (by omega)]
    rw [hup, hlo, h2]
    have : c.toNat - 32 + 32 = c.toNat := by omega
    rw [this, Char.ofNat_toNat]
  · rw [toUpper_eq_self c h]

theorem lowerStr_capFirst (s : String) : lowerStr (capFirst s) = lowerStr s := by
  rcases hd : s.data with _ | ⟨c, cs⟩
  · simp [capFirst, hd]
  · simp [capFirst, hd, lowerStr, toLower_toUpper]

/-- No two immediately adjacent tokens are equal under case-insensitive
comparison. -/
def noAdjacentDupLower : List String → Bool
  | [] => true
  | [_] => true
  | a :: b :: rest => (lowerStr a != lowerStr b) && noAdjacentDupLower (b :: rest)

theorem removeConsecDupsAux_mem : ∀ (ws : List String) (prev : Option String),
    ∀ x ∈ removeConsecDupsAux ws prev, x ∈ ws := by
  intro ws
  induction ws with
  | nil => intro prev x hx; simp [removeConsecDupsAux] at hx
  | cons w ws ih =>
      intro prev x hx
      unfold removeConsecDupsAux at hx
      by_cases h : some (lowerStr w) = prev
      · simp only [h, if_pos] at hx
        exact List.mem_cons_of_mem w (ih _ x hx)
      · simp only [h, if_neg, not_false_iff] at hx
        rcases List.mem_cons.mp hx with rfl | hmem
        · exact List.mem_cons_self x ws
        · exact List.mem_cons_of_mem w (ih _ x hmem)

theorem removeConsecDupsAux_cons (w : String) (ws : List String) (prev : Option String) :
    removeConsecDupsAux (w :: ws) prev
      = if some (lowerStr w) = prev then removeConsecDupsAux ws (some (lowerStr w))
        else w :: removeConsecDupsAux ws (some (lowerStr w)) := rfl

theorem noAdjacentDupLower_cons (a b : String) (rest : List String) :
    noAdjacentDupLower (a :: b :: rest)
      = ((lowerStr a != lowerStr b) && noAdjacentDupLower (b :: rest)) := rfl

theorem removeConsecDupsAux_noAdj : ∀ (ws : List String) (prev : Option String),
    noAdjacentDupLower (removeConsecDupsAux ws prev) = true
  ∧ (∀ w₀ rest, removeConsecDupsAux ws prev = w₀ :: rest →
      ∀ p, prev = some p → lowerStr w₀ ≠ p) := by
  intro ws
  induction ws with
  | nil =>
      intro prev
      exact ⟨rfl, by intro w₀ rest h; simp [removeConsecDupsAux] at h⟩
  | cons w ws ih =>
      intro prev
      obtain ⟨ihChain, ihHead⟩ := ih (some (lowerStr w))
      rw [removeConsecDupsAux_cons]
      by_cases h : some (lowerStr w) = prev
      · rw [if_pos h]
        refine ⟨ihChain, ?_⟩
        intro w₀ rest heq p hp
        have hthis := ihHead w₀ rest heq (lowerStr w) rfl
        have hwp : lowerStr w = p := by
          rw [← h] at hp
          exact Option.some_injective _ hp
        rw [← hwp]
        exact hthis
      · rw [if_neg h]
        constructor
        · rcases hr : removeConsecDupsAux ws (some (lowerStr w)) with _ | ⟨w₁, rest₁⟩
          · rfl
          · rw [noAdjacentDupLower_cons]
            have hne : lowerStr w₁ ≠ lowerStr w := ihHead w₁ rest₁ hr (lowerStr w) rfl
            rw [hr] at ihChain
            simp [bne_iff_ne, Ne.symm hne, ihChain]
        · intro w₀ rest heq p hp
          have hw0 : w₀ = w := by
            have := congrArg List.head? heq
            simpa using this.symm
          subst hw0
          intro hcon
          apply h
          rw [hp, hcon]

theorem noAdjacentDupLower_capFirst (t : String) (ts : List String)
    (h : noAdjacentDupLower (t :: ts) = true) :
    noAdjacentDupLower (capFirst t :: ts) = true := by
  cases ts with
  | nil => rfl
  | cons t' ts' =>
      rw [noAdjacentDupLower_cons, lowerStr_capFirst]
      rw [noAdjacentDupLower_cons] at h
      exact h

theorem pySpace_toUpper (c : Char) (h : pySpace c = false) : pySpace c.toUpper = false := by
  by_cases hr : 97 ≤ c.toNat ∧ c.toNat ≤ 122
  · have h2 := toUpper_toNat_lower c hr
    have hs : (' ' : Char).toNat = 32 := rfl
    have ht : ('\t' : Char).toNat = 9 := rfl
    have hn : ('\n' : Char).toNat = 10 := rfl
    have hcr : ('\x0d' : Char).toNat = 13 := rfl
    have hff : ('\x0c' : Char).toNat = 12 := rfl
    have hvt : ('\x0b' : Char).toNat = 11 := rfl
    simp only [pySpace, Bool.or_eq_false_iff, decide_eq_false_iff_not]
    refine ⟨⟨⟨⟨⟨?_, ?_⟩, ?_⟩, ?_⟩, ?_⟩, ?_⟩ <;>
      · intro heq
        have := congrArg Char.toNat heq
        omega
  · rw [toUpper_eq_self c hr]
    exact h

theorem capFirst_data (s : String) (c : Char) (cs : List Char) (hd : s.data = c :: cs) :
    (capFirst s).data = c.toUpper :: cs := by
  unfold capFirst
  rw [hd]

theorem capFirst_tokens (t : String) (ht : t ≠ "" ∧ ∀ c ∈ t.data, ¬ pySpace c) :
    capFirst t ≠ "" ∧ ∀ c ∈ (capFirst t).data, ¬ pySpace c := by
  rcases hd : t.data with _ | ⟨c, cs⟩
  · exact absurd (by cases t; simp_all) ht.1
  · have hcd := capFirst_data t c cs hd
    constructor
    · intro hcon
      have : (capFirst t).data = [] := by rw [hcon]
      rw [hcd] at this
      simp at this
    · intro x hx
      rw [hcd] at hx
      rcases List.mem_cons.mp hx with rfl | hmem
      · have hc : pySpace c = false := by
          have := ht.2 c (by rw [hd]; simp)
          simpa using this
        simp [pySpace_toUpper c hc]
      · exact ht.2 x (by rw [hd]; simp [hmem])

theorem capFirst_joinSpace (t : String) (ts : List String) (ht : t ≠ "") :
    capFirst (joinSpace (t :: ts)) = joinSpace (capFirst t :: ts) := by
  rcases hd : t.data with _ | ⟨c, cs⟩
  · exact absurd (by cases t; simp_all) ht
  cases ts with
  | nil =>
      show capFirst t = joinSpace [capFirst t]
      rfl
  | cons t' ts' =>
      show capFirst (t ++ " " ++ joinSpace (t' :: ts')) = capFirst t ++ " " ++ joinSpace (t' :: ts')
      have hdata : (t ++ " " ++ joinSpace (t' :: ts')).data
          = c :: (cs ++ (" " ++ joinSpace (t' :: ts')).data) := by
        simp [String.data_append, hd]
      apply String.ext
      rw [capFirst_data _ c (cs ++ (" " ++ joinSpace (t' :: ts')).data) hdata]
      simp [String.data_append, capFirst_data t c cs hd]

theorem splitRunsAux_all_sep (keep : Char → Bool) :
    ∀ l : List Char, (∀ c ∈ l, ¬ keep c) → splitRunsAux keep l [] = [] := by
  intro l
  induction l with
  | nil => intro _; rfl
  | cons c cs ih =>
      intro h
      have hc : keep c = false := by
        have := h c (by simp)
        simpa using this
      show (if keep c then splitRunsAux keep cs [c]
            else if ([] : List Char).isEmpty then splitRunsAux keep cs []
            else [].reverse :: splitRunsAux keep cs []) = []
      rw [hc]
      simp only [Bool.false_eq_true, if_false, List.isEmpty_nil, if_true]
      exact ih (fun x hx => h x (by simp [hx]))

theorem splitWS_all_space (p : String) (h : ∀ c ∈ p.data, pySpace c) :
    splitWS p = [] := by
  simp only [splitWS, splitRuns]
  rw [splitRunsAux_all_sep]
  · rfl
  · intro c hc
    simp [h c hc]

/-- C10 (confirmed). Enhancing an empty or whitespace-only prompt (with
enhancement enabled) returns exactly the string ", highly detailed,
cinematic". -/
theorem enhance_whitespace_only (p : String) (h : ∀ c ∈ p.data, pySpace c) :
    enhance_prompt true p = ", highly detailed, cinematic" := by
  have hsw : splitWS p = [] := splitWS_all_space p h
  simp only [enhance_prompt, hsw]
  rfl

theorem enhance_whitespace_only_witness :
    (∀ c ∈ ("  " : String).data, pySpace c)
  ∧ enhance_prompt true "  " = ", highly detailed, cinematic" :=
  ⟨by decide, enhance_whitespace_only "  " (by decide)⟩

/-- The whitespace-collapsed, consecutive-duplicate-free text built by the
first two steps of `enhance_prompt`. -/
def enhanceCore (p : String) : String := joinSpace (removeConsecDups (splitWS p))

theorem enhanceCore_capFirst_noAdj (p : String) :
    noAdjacentDupLower (splitWS (capFirst (enhanceCore p))) = true := by
  unfold enhanceCore
  rcases hrcd : removeConsecDups (splitWS p) with _ | ⟨t, ts⟩
  · rfl
  · have htoks : ∀ x ∈ t :: ts, x ≠ "" ∧ ∀ c ∈ x.data, ¬ pySpace c := by
      intro x hx
      apply splitWS_tokens p
      apply removeConsecDupsAux_mem (splitWS p) none
      show x ∈ removeConsecDups (splitWS p)
      rw [hrcd]
      exact hx
    have ht := htoks t (by simp)
    have hcapt := capFirst_tokens t ht
    rw [capFirst_joinSpace t ts ht.1, splitWS_joinSpace (capFirst t :: ts) ?_]
    · apply noAdjacentDupLower_capFirst
      have hchain := (removeConsecDupsAux_noAdj (splitWS p) none).1
      rw [show removeConsecDupsAux (splitWS p) none = removeConsecDups (splitWS p) from rfl,
        hrcd] at hchain
      exact hchain
    · intro x hx
      rcases List.mem_cons.mp hx with rfl | hmem
      · exact hcapt
      · exact htoks x (by simp [hmem])

theorem enhance_prompt_eq (p : String) :
    enhance_prompt true p
      = (if (!(subOccurs "cinematic" (lowerStr (enhanceCore p)))
              && !(subOccurs "detailed" (lowerStr (enhanceCore p))))
         then capFirst (enhanceCore p) ++ ", highly detailed, cinematic"
         else capFirst (enhanceCore p)) := by
  show (if (!(subOccurs "cinematic" (lowerStr (capFirst (enhanceCore p))))
          && !(subOccurs "detailed" (lowerStr (capFirst (enhanceCore p)))))
        then capFirst (enhanceCore p) ++ ", highly detailed, cinematic"
        else capFirst (enhanceCore p)) = _
  rw [lowerStr_capFirst]

/-- C8 (corrected from the claim; see the counterexample). For every prompt,
with enhancement enabled: the whitespace-collapsed de-duplicated core (with
its first character capitalized) contains no immediately adjacent pair of
case-insensitively equal tokens; the suffix ", highly detailed, cinematic"
is appended exactly when neither "cinematic" nor "detailed" occurs
case-insensitively in that core; when the suffix is not appended the full
output also has no adjacent equal token pair; the first character of the
output is fixed under uppercasing; and the particular input
"The man man walked walked" yields an output with no immediately repeated
consecutive token pair. (The claim's unrestricted no-adjacent-pair property
fails when the appended suffix attaches a comma to the last token.) -/
theorem enhance_prompt_postconditions (p : String) :
    noAdjacentDupLower (splitWS (capFirst (enhanceCore p))) = true
  ∧ enhance_prompt true p
      = (if (!(subOccurs "cinematic" (lowerStr (enhanceCore p)))
              && !(subOccurs "detailed" (lowerStr (enhanceCore p))))
         then capFirst (enhanceCore p) ++ ", highly detailed, cinematic"
         else capFirst (enhanceCore p))
  ∧ ((subOccurs "cinematic" (lowerStr (enhanceCore p))
        || subOccurs "detailed" (lowerStr (enhanceCore p))) = true →
      noAdjacentDupLower (splitWS (enhance_prompt true p)) = true)
  ∧ (∀ c, (enhance_prompt true p).data.head? = some c → c.toUpper = c)
  ∧ noAdjacentDupLower (splitWS (enhance_prompt true "The man man walked walked")) = true := by
  refine ⟨enhanceCore_capFirst_noAdj p, enhance_prompt_eq p, ?_, ?_, by decide⟩
  · intro hor
    have hcond : (!(subOccurs "cinematic" (lowerStr (enhanceCore p)))
        && !(subOccurs "detailed" (lowerStr (enhanceCore p)))) = false := by
      rcases Bool.or_eq_true_iff.mp hor with h | h <;> simp [h]
    rw [enhance_prompt_eq p, hcond]
    simp only [Bool.false_eq_true, if_false]
    exact enhanceCore_capFirst_noAdj p
  · intro c hc
    rw [enhance_prompt_eq p] at hc
    rcases hcd : (enhanceCore p).data with _ | ⟨c₀, cs₀⟩
    · have hcore : enhanceCore p = "" := String.ext (by rw [hcd])
      rw [hcore] at hc
      have hc2 : (some ',' : Option Char) = some c := hc
      have hval : c = ',' := by
        injection hc2 with h2
        exact h2.symm
      rw [hval]
      decide
    · have hcap := capFirst_data (enhanceCore p) c₀ cs₀ hcd
      by_cases hcond : (!(subOccurs "cinematic" (lowerStr (enhanceCore p)))
          && !(subOccurs "detailed" (lowerStr (enhanceCore p)))) = true
      · rw [if_pos hcond, String.data_append, hcap] at hc
        simp only [List.cons_append, List.head?_cons, Option.some.injEq] at hc
        rw [← hc]
        exact toUpper_toUpper c₀
      · rw [if_neg hcond, hcap] at hc
        simp only [List.head?_cons, Option.some.injEq] at hc
        rw [← hc]
        exact toUpper_toUpper c₀

/-- Counterexample to C8 as stated: enhancing "a x, x" yields
"A x, x, highly detailed, cinematic"; appending the suffix attaches a comma
to the final token "x", recreating the immediately adjacent
case-insensitively equal pair ("x,", "x,"). -/
theorem enhance_prompt_adjacent_dup_counterexample :
    noAdjacentDupLower (splitWS (enhance_prompt true "a x, x")) = false := by decide

theorem enhance_prompt_postconditions_witness :
    (subOccurs "cinematic" (lowerStr (enhanceCore "a cinematic b b"))
      || subOccurs "detailed" (lowerStr (enhanceCore "a cinematic b b"))) = true
  ∧ noAdjacentDupLower (splitWS (enhance_prompt true "a cinematic b b")) = true :=
  ⟨by decide, (enhance_prompt_postconditions "a cinematic b b").2.2.1 (by decide)⟩

/-! ## RetryHandler (src/utils/retry_handler.py) -/

/-- Exception classes relevant to the retry policy: `RateLimitError`,
`APIError`, and any other exception class. -/
inductive PyErr where
  | rateLimit (msg : String)
  | api (msg : String)
  | other (msg : String)
  deriving DecidableEq

def PyErr.msg : PyErr → String
  | .rateLimit m => m
  | .api m => m
  | .other m => m

/-- An error is retryable when it is caught by the `RateLimitError` or
`APIError` handlers. -/
def PyErr.retryable : PyErr → Bool
  | .rateLimit _ => true
  | .api _ => true
  | .other _ => false

structure RetryHandler where
  maxRetries : Nat
  initialDelay : ℚ
  maxDelay : ℚ
  exponentialBase : ℚ
  deriving DecidableEq

/-- `RetryHandler.calculate_delay`: `min(initial_delay * base^attempt, max_delay)`. -/
def calculate_delay (h : RetryHandler) (attempt : Nat) : ℚ :=
  min (h.initialDelay * h.exponentialBase ^ attempt) h.maxDelay

/-- Observable outcome of one `RetryHandler.retry` run: how many times the
wrapped operation was invoked, the sleeps performed between attempts (in
order), and the final result (value returned or exception raised). -/
structure RetryTrace (α : Type) where
  calls : Nat
  sleeps : List ℚ
  result : Except PyErr α

/-- The wrapping error raised by `retry` once every attempt has failed:
`APIError(f"Operation failed after {max_retries} retries: {last}")`. -/
def retryWrapErr (maxRetries : Nat) (last : Option PyErr) : PyErr :=
  match last with
  | some e => .api ("Operation failed after " ++ toString maxRetries ++ " retries: " ++ e.msg)
  | none => .api ("Operation failed after " ++ toString maxRetries ++ " retries")

/-- The attempt loop of `RetryHandler.retry`, over a deterministic
attempt-indexed operation `op` (attempt number `attempt`, `remaining`
attempts left out of `h.maxRetries`, `lastExc` the last caught retryable
exception). On a retryable failure with attempts remaining it sleeps
`calculate_delay attempt` and continues; a non-retryable failure is
re-raised immediately; after the loop the wrapping `APIError` is raised. -/
def retryLoop (h : RetryHandler) (op : Nat → Except PyErr α) :
    Nat → Nat → Option PyErr → RetryTrace α
  | _, 0, lastExc => ⟨0, [], .error (retryWrapErr h.maxRetries lastExc)⟩
  | attempt, remaining + 1, _lastExc =>
      match op attempt with
      | .ok v => ⟨1, [], .ok v⟩
      | .error e =>
          if e.retryable then
            if remaining = 0 then
              -- last attempt: no sleep, fall through to the wrapping error
              ⟨1, [], .error (retryWrapErr h.maxRetries (some e))⟩
            else
              let rest := retryLoop h op (attempt + 1) remaining (some e)
              ⟨rest.calls + 1, calculate_delay h attempt :: rest.sleeps, rest.result⟩
          else
            ⟨1, [], .error e⟩

/-- `RetryHandler.retry` on a deterministic attempt-indexed operation. -/
def retryRun (h : RetryHandler) (op : Nat → Except PyErr α) : RetryTrace α :=
  retryLoop h op 0 h.maxRetries none

theorem retryLoop_calls_le {α : Type} (h : RetryHandler) (op : Nat → Except PyErr α) :
    ∀ (remaining attempt : Nat) (lastExc : Option PyErr),
      (retryLoop h op attempt remaining lastExc).calls ≤ remaining := by
  intro remaining
  induction remaining with
  | zero => intro attempt lastExc; simp [retryLoop]
  | succ r ih =>
      intro attempt lastExc
      unfold retryLoop
      rcases op attempt with v | e
      · rcases hre : (PyErr.retryable v) with _ | _
        · simp [hre]
        · rcases hr0 : r with _ | r'
          · simp [hre, hr0]
          · simp only [hre, hr0, if_true, Nat.succ_ne_zero, if_false]
            have := ih (attempt + 1) (some v)
            rw [hr0] at this
            simpa using Nat.add_le_add_right this 1
      · simp

theorem retryLoop_ok {α : Type} (h : RetryHandler) (op : Nat → Except PyErr α) :
    ∀ (k attempt remaining : Nat) (lastExc : Option PyErr) (v : α),
      k < remaining →
      (∀ a, a < k → ∃ e, op (attempt + a) = .error e ∧ e.retryable = true) →
      op (attempt + k) = .ok v →
      retryLoop h op attempt remaining lastExc
        = ⟨k + 1, (List.range k).map (fun i => calculate_delay h (attempt + i)), .ok v⟩ := by
  intro k
  induction k with
  | zero =>
      intro attempt remaining lastExc v hk _ hok
      rcases remaining with _ | r
      · omega
      · unfold retryLoop
        rw [show attempt + 0 = attempt from rfl] at hok
        rw [hok]
        simp
  | succ k ih =>
      intro attempt remaining lastExc v hk hfail hok
      rcases remaining with _ | r
      · omega
      · obtain ⟨e₀, he₀, hre₀⟩ := hfail 0 (Nat.succ_pos k)
        rw [show attempt + 0 = attempt from rfl] at he₀
        unfold retryLoop
        rw [he₀]
        have hr0 : r ≠ 0 := by omega
        simp only [hre₀, if_true, hr0, if_false]
        have ihh := ih (attempt + 1) r (some e₀) v (by omega)
          (by
            intro a ha
            obtain ⟨e, he, hre⟩ := hfail (a + 1) (by omega)
            exact ⟨e, by rw [show attempt + 1 + a = attempt + (a + 1) by omega]; exact he, hre⟩)
          (by rw [show attempt + 1 + k = attempt + (k + 1) by omega]; exact hok)
        rw [ihh]
        have hlist : (List.range (k + 1)).map (fun i => calculate_delay h (attempt + i))
            = calculate_delay h attempt
              :: (List.range k).map (fun i => calculate_delay h (attempt + 1 + i)) := by
          rw [List.range_succ_eq_map]
          simp only [List.map_cons, List.map_map, Nat.add_zero]
          refine congrArg₂ _ rfl ?_
          apply List.map_congr_left
          intro i _
          show calculate_delay h (attempt + (i + 1)) = calculate_delay h (attempt + 1 + i)
          rw [show attempt + (i + 1) = attempt + 1 + i by omega]
        rw [hlist]

theorem delay_range_succ (h : RetryHandler) (attempt k : Nat) :
    (List.range (k + 1)).map (fun i => calculate_delay h (attempt + i))
      = calculate_delay h attempt
        :: (List.range k).map (fun i => calculate_delay h (attempt + 1 + i)) := by
  rw [List.range_succ_eq_map]
  simp only [List.map_cons, List.map_map, Nat.add_zero]
  refine congrArg₂ _ rfl ?_
  apply List.map_congr_left
  intro i _
  show calculate_delay h (attempt + (i + 1)) = calculate_delay h (attempt + 1 + i)
  rw [show attempt + (i + 1) = attempt + 1 + i by omega]

theorem retryLoop_fatal {α : Type} (h : RetryHandler) (op : Nat → Except PyErr α) :
    ∀ (k attempt remaining : Nat) (lastExc : Option PyErr) (e : PyErr),
      k < remaining →
      (∀ a, a < k → ∃ e', op (attempt + a) = .error e' ∧ e'.retryable = true) →
      op (attempt + k) = .error e → e.retryable = false →
      retryLoop h op attempt remaining lastExc
        = ⟨k + 1, (List.range k).map (fun i => calculate_delay h (attempt + i)), .error e⟩ := by
  intro k
  induction k with
  | zero =>
      intro attempt remaining lastExc e hk _ herr hnre
      rcases remaining with _ | r
      · omega
      · unfold retryLoop
        rw [show attempt + 0 = attempt from rfl] at herr
        rw [herr]
        simp [hnre]
  | succ k ih =>
      intro attempt remaining lastExc e hk hfail herr hnre
      rcases remaining with _ | r
      · omega
      · obtain ⟨e₀, he₀, hre₀⟩ := hfail 0 (Nat.succ_pos k)
        rw [show attempt + 0 = attempt from rfl] at he₀
        unfold retryLoop
        rw [he₀]
        have hr0 : r ≠ 0 := by omega
        simp only [hre₀, if_true, hr0, if_false]
        have ihh := ih (attempt + 1) r (some e₀) e (by omega)
          (by
            intro a ha
            obtain ⟨e', he', hre'⟩ := hfail (a + 1) (by omega)
            exact ⟨e', by rw [show attempt + 1 + a = attempt + (a + 1) by omega]; exact he', hre'⟩)
          (by rw [show attempt + 1 + k = attempt + (k + 1) by omega]; exact herr) hnre
        rw [ihh, delay_range_succ]

theorem retryLoop_exhaust {α : Type} (h : RetryHandler) (op : Nat → Except PyErr α) :
    ∀ (remaining attempt : Nat) (lastExc : Option PyErr) (e : PyErr),
      0 < remaining →
      (∀ a, a < remaining → ∃ e', op (attempt + a) = .error e' ∧ e'.retryable = true) →
      op (attempt + (remaining - 1)) = .error e →
      retryLoop h op attempt remaining lastExc
        = ⟨remaining, (List.range (remaining - 1)).map (fun i => calculate_delay h (attempt + i)),
            .error (retryWrapErr h.maxRetries (some e))⟩ := by
  intro remaining
  induction remaining with
  | zero => intro attempt lastExc e h0; omega
  | succ r ih =>
      intro attempt lastExc e _ hfail hlast
      obtain ⟨e₀, he₀, hre₀⟩ := hfail 0 (Nat.succ_pos r)
      rw [show attempt + 0 = attempt from rfl] at he₀
      unfold retryLoop
      rw [he₀]
      rcases hr : r with _ | r'
      · subst hr
        simp only [if_pos rfl, hre₀, if_true]
        rw [show attempt + (1 - 1) = attempt from rfl] at hlast
        rw [he₀] at hlast
        injection hlast with he
        rw [he]
        rfl
      · have hr0 : r ≠ 0 := by omega
        rw [← hr] at *
        simp only [hre₀, if_true, hr0, if_false]
        have ihh := ih (attempt + 1) (some e₀) e (by omega)
          (by
            intro a ha
            obtain ⟨e', he', hre'⟩ := hfail (a + 1) (by omega)
            exact ⟨e', by rw [show attempt + 1 + a = attempt + (a + 1) by omega]; exact he', hre'⟩)
          (by
            rw [show attempt + 1 + (r - 1) = attempt + (r + 1 - 1) by omega]
            exact hlast)
        rw [ihh]
        have : (List.range (r + 1 - 1)).map (fun i => calculate_delay h (attempt + i))
            = calculate_delay h attempt
              :: (List.range (r - 1)).map (fun i => calculate_delay h (attempt + 1 + i)) := by
          rw [show r + 1 - 1 = (r - 1) + 1 by omega]
          exact delay_range_succ h attempt (r - 1)
        rw [this]

/-- C4 (confirmed). `RetryHandler.retry` invokes the wrapped operation at
most `max_retries` times; when an attempt fails with a rate-limit or API
error and attempts remain it sleeps `min(initial_delay * base^attempt,
max_delay)` (attempt 0-indexed) and retries; an error of any other class
propagates immediately; and once all `max_retries` attempts have failed it
raises a wrapping `APIError` carrying the last underlying cause. -/
theorem retry_policy_spec {α : Type} (h : RetryHandler) (op : Nat → Except PyErr α) :
    (∀ attempt, calculate_delay h attempt
        = min (h.initialDelay * h.exponentialBase ^ attempt) h.maxDelay)
  ∧ (retryRun h op).calls ≤ h.maxRetries
  ∧ (∀ k v, k < h.maxRetries →
      (∀ a, a < k → ∃ e, op a = .error e ∧ e.retryable = true) →
      op k = .ok v →
      retryRun h op = ⟨k + 1, (List.range k).map (calculate_delay h), .ok v⟩)
  ∧ (∀ k e, k < h.maxRetries →
      (∀ a, a < k → ∃ e', op a = .error e' ∧ e'.retryable = true) →
      op k = .error e → e.retryable = false →
      retryRun h op = ⟨k + 1, (List.range k).map (calculate_delay h), .error e⟩)
  ∧ (∀ e, 0 < h.maxRetries →
      (∀ a, a < h.maxRetries → ∃ e', op a = .error e' ∧ e'.retryable = true) →
      op (h.maxRetries - 1) = .error e →
      retryRun h op
        = ⟨h.maxRetries, (List.range (h.maxRetries - 1)).map (calculate_delay h),
            .error (retryWrapErr h.maxRetries (some e))⟩) := by
  refine ⟨fun _ => rfl, retryLoop_calls_le h op h.maxRetries 0 none, ?_, ?_, ?_⟩
  · intro k v hk hfail hok
    have := retryLoop_ok h op k 0 h.maxRetries none v hk
      (by intro a ha; simpa using hfail a ha) (by simpa using hok)
    simpa [retryRun] using this
  · intro k e hk hfail herr hnre
    have := retryLoop_fatal h op k 0 h.maxRetries none e hk
      (by intro a ha; simpa using hfail a ha) (by simpa using herr) hnre
    simpa [retryRun] using this
  · intro e h0 hfail hlast
    have := retryLoop_exhaust h op h.maxRetries 0 none e h0
      (by intro a ha; simpa using hfail a ha) (by simpa using hlast)
    simpa [retryRun] using this

theorem retry_policy_spec_witness :
    1 < 3
  ∧ (fun a => if a = 0 then (.error (.rateLimit "r") : Except PyErr Nat) else .ok 7) 1 = .ok 7
  ∧ retryRun ⟨3, 1, 60, 2⟩
        (fun a => if a = 0 then (.error (.rateLimit "r") : Except PyErr Nat) else .ok 7)
      = ⟨1 + 1, (List.range 1).map (calculate_delay ⟨3, 1, 60, 2⟩), .ok 7⟩ :=
  ⟨by decide, rfl,
    (retry_policy_spec ⟨3, 1, 60, 2⟩
      (fun a => if a = 0 then (.error (.rateLimit "r") : Except PyErr Nat) else .ok 7)).2.2.1
      1 7 (by decide)
      (by
        intro a ha
        have ha0 : a = 0 := Nat.lt_one_iff.mp ha
        subst ha0
        exact ⟨.rateLimit "r", rfl, rfl⟩)
      rfl⟩

/-! ## difflib.SequenceMatcher ratio (called by SimilarityCalculator) -/

/-- difflib autojunk: with `b` of length at least 200, characters occurring
more than `len(b) // 100 + 1` times are treated as junk ("popular"). -/
def isPopular (b : List Char) (c : Char) : Bool :=
  (200 ≤ b.length) && (b.length / 100 + 1 < b.count c)

/-- `b2j`: ascending list of the positions of `c` in `b`, with popular
characters dropped (junk parameter is `None` in the source). -/
def b2j (b : List Char) (c : Char) : List Nat :=
  if isPopular b c then []
  else (b.enum.filter (fun p => p.2 = c)).map Prod.fst

/-- One row of the `find_longest_match` dynamic program: for the fixed line
`i` in `a`, walk the positions of `a[i]` in `b` inside `[blo, bhi)`,
extending runs recorded in the previous row's `j2len` and updating the best
block (strictly longer runs only, so the earliest maximal block wins). -/
def flmRow (a b : List Char) (blo bhi i : Nat) (j2len : Nat → Nat)
    (best : Nat × Nat × Nat) : (Nat → Nat) × (Nat × Nat × Nat) :=
  let js := (b2j b (a.getD i ' ')).filter (fun j => blo ≤ j && j < bhi)
  js.foldl
    (fun acc j =>
      let k := (if j = 0 then 0 else j2len (j - 1)) + 1
      let nj : Nat → Nat := fun x => if x = j then k else acc.1 x
      -- Python `i-k+1` / `j-k+1` on ints, written to avoid Nat truncation
      if acc.2.2.2 < k then (nj, (i + 1 - k, j + 1 - k, k)) else (nj, acc.2))
    ((fun _ => 0), best)

def flmRows (a b : List Char) (blo bhi : Nat) :
    List Nat → (Nat → Nat) → (Nat × Nat × Nat) → (Nat × Nat × Nat)
  | [], _, best => best
  | i :: is, j2len, best =>
      let r := flmRow a b blo bhi i j2len best
      flmRows a b blo bhi is r.1 r.2

/-- The left-extension while-loops of `find_longest_match` (`wantJunk`
selects the junk or non-junk phase), bounded by fuel. -/
def extLeft (junk : Char → Bool) (a b : List Char) (alo blo : Nat) (wantJunk : Bool) :
    Nat → Nat × Nat × Nat → Nat × Nat × Nat
  | 0, st => st
  | fuel + 1, (besti, bestj, bestsize) =>
      if (alo < besti && blo < bestj)
          && (junk (b.getD (bestj - 1) ' ') == wantJunk)
          && (a.getD (besti - 1) ' ' == b.getD (bestj - 1) ' ')
      then extLeft junk a b alo blo wantJunk fuel (besti - 1, bestj - 1, bestsize + 1)
      else (besti, bestj, bestsize)

/-- The right-extension while-loops of `find_longest_match`. -/
def extRight (junk : Char → Bool) (a b : List Char) (ahi bhi : Nat) (wantJunk : Bool) :
    Nat → Nat × Nat × Nat → Nat × Nat × Nat
  | 0, st => st
  | fuel + 1, (besti, bestj, bestsize) =>
      if (besti + bestsize < ahi && bestj + bestsize < bhi)
          && (junk (b.getD (bestj + bestsize) ' ') == wantJunk)
          && (a.getD (besti + bestsize) ' ' == b.getD (bestj + bestsize) ' ')
      then extRight junk a b ahi bhi wantJunk fuel (besti, bestj, bestsize + 1)
      else (besti, bestj, bestsize)

/-- `SequenceMatcher.find_longest_match` on the ranges `[alo, ahi)` of `a`
and `[blo, bhi)` of `b`: the dynamic program followed by the four
junk-boundary extension loops. -/
def find_longest_match (a b : List Char) (alo ahi blo bhi : Nat) : Nat × Nat × Nat :=
  let junk := isPopular b
  let st0 := flmRows a b blo bhi (List.range' alo (ahi - alo)) (fun _ => 0) (alo, blo, 0)
  let st1 := extLeft junk a b alo blo false (st0.2.1 + 1) st0
  let st2 := extRight junk a b ahi bhi false (bhi + 1) st1
  let st3 := extLeft junk a b alo blo true (st2.2.1 + 1) st2
  let st4 := extRight junk a b ahi bhi true (bhi + 1) st3
  st4

/-- Total size of all matching blocks found by the recursive subdivision of
`get_matching_blocks` (the queue order does not affect the total). -/
def matchSum (a b : List Char) : Nat → Nat → Nat → Nat → Nat → Nat
  | 0, _, _, _, _ => 0
  | fuel + 1, alo, ahi, blo, bhi =>
      let m := find_longest_match a b alo ahi blo bhi
      if m.2.2 = 0 then 0
      else matchSum a b fuel alo m.1 blo m.2.1
        + m.2.2
        + matchSum a b fuel (m.1 + m.2.2) ahi (m.2.1 + m.2.2) bhi

def seqMatchTotal (a b : List Char) : Nat := matchSum a b (a.length + 1) 0 a.length 0 b.length

/-- `difflib._calculate_ratio`. -/
def ratioCalc (numMatches totalLen : Nat) : ℚ :=
  if totalLen = 0 then 1 else 2 * (numMatches : ℚ) / (totalLen : ℚ)

/-! ## SimilarityCalculator (src/processing/similarity.py) -/

/-- `re.sub(r'\s+', ' ', text)`: collapse every whitespace run to one
space (leading/trailing runs become single spaces; no stripping here). -/
def collapseAux : List Char → Bool → List Char
  | [], _ => []
  | c :: cs, inRun =>
      if pySpace c then
        if inRun then collapseAux cs true else ' ' :: collapseAux cs true
      else c :: collapseAux cs false

/-- Characters stripped at the boundaries by `_normalize_text`. -/
def boundaryStrip (c : Char) : Bool :=
  c = ' ' || c = '.' || c = ',' || c = ';' || c = ':' || c = '!' || c = '?'

/-- Python `s.strip(' .,;:!?')`. -/
def stripBoth (l : List Char) : List Char :=
  ((l.dropWhile boundaryStrip).reverse.dropWhile boundaryStrip).reverse

/-- `SimilarityCalculator._normalize_text`: lowercase, collapse whitespace,
strip boundary punctuation and spaces. -/
def normalize_text (s : String) : String :=
  String.mk (stripBoth (collapseAux (lowerStr s).data false))

/-- `SimilarityCalculator._sequence_similarity`:
`SequenceMatcher(None, text1, text2).ratio()`. -/
def sequence_similarity (t1 t2 : String) : ℚ :=
  ratioCalc (seqMatchTotal t1.data t2.data) (t1.data.length + t2.data.length)

/-- `SimilarityCalculator._token_similarity`: Jaccard similarity of the
whitespace-split token sets. -/
def token_similarity (t1 t2 : String) : ℚ :=
  let tok1 := (splitWS t1).dedup
  let tok2 := (splitWS t2).dedup
  if tok1.isEmpty || tok2.isEmpty then 0
  else
    let inter := (tok1.filter (fun t => t ∈ tok2)).length
    let union := (tok1 ++ tok2.filter (fun t => t ∉ tok1)).length
    if union = 0 then 0 else (inter : ℚ) / (union : ℚ)

/-- `SimilarityCalculator.calculate_similarity`: 0 for empty input,
otherwise `0.6 * sequence_similarity + 0.4 * token_similarity` over the
normalized texts. -/
def calculate_similarity (t1 t2 : String) : ℚ :=
  if t1 = "" || t2 = "" then 0
  else
    let n1 := normalize_text t1
    let n2 := normalize_text t2
    sequence_similarity n1 n2 * (3 / 5) + token_similarity n1 n2 * (2 / 5)

/-- `SimilarityCalculator.is_duplicate`: `similarity >= threshold`. -/
def is_duplicate (threshold : ℚ) (t1 t2 : String) : Bool :=
  decide (threshold ≤ calculate_similarity t1 t2)

/-! ## The greedy duplicate-marking loops of `find_duplicates`, generic in
the duplicate test `d i j` on indices -/

/-- The inner loop of `find_duplicates` for a fixed surviving index `i`:
walk the candidate indices `js`, skipping already-marked ones, and mark `j`
when `d i j`. -/
def markInner (d : Nat → Nat → Bool) (i : Nat) (js : List Nat) (dups : Finset Nat) : Finset Nat :=
  js.foldl (fun acc j => if j ∈ acc then acc else if d i j then insert j acc else acc) dups

/-- The outer loop of `find_duplicates`: for each index `i` in order, if it
is not already marked, run the inner loop over the indices above it. -/
def markOuter (d : Nat → Nat → Bool) (n : Nat) (is : List Nat) (dups : Finset Nat) : Finset Nat :=
  is.foldl
    (fun acc i =>
      if i ∈ acc then acc else markInner d i (List.range' (i + 1) (n - (i + 1))) acc)
    dups

def findDuplicatesSet (d : Nat → Nat → Bool) (n : Nat) : Finset Nat :=
  markOuter d n (List.range n) ∅

/-- The duplicate test `find_duplicates` applies to a prompt list. -/
def promptDup (threshold : ℚ) (ps : List String) (i j : Nat) : Bool :=
  is_duplicate threshold (ps.getD i "") (ps.getD j "")

/-- `SimilarityCalculator.find_duplicates`: the marked indices, sorted. -/
def find_duplicates (threshold : ℚ) (ps : List String) : List Nat :=
  (findDuplicatesSet (promptDup threshold ps) ps.length).sort (· ≤ ·)

/-- `SimilarityCalculator.deduplicate`: the prompts whose indices were not
marked, in their original order. -/
def deduplicate (threshold : ℚ) (ps : List String) : List String :=
  ((ps.enum.filter
      (fun p => decide (p.1 ∉ findDuplicatesSet (promptDup threshold ps) ps.length))).map
    Prod.snd)

/-- `SimilarityCalculator.deduplicate_with_metadata`: same, over records
carrying their prompt under `key`. -/
def deduplicate_with_metadata {α : Type} (threshold : ℚ) (key : α → String)
    (rs : List α) : List α :=
  let ps := rs.map key
  ((rs.enum.filter
      (fun p => decide (p.1 ∉ findDuplicatesSet (promptDup threshold ps) ps.length))).map
    Prod.snd)

/-! ## Properties of the duplicate-marking loops -/

theorem markInner_mono (d : Nat → Nat → Bool) (i : Nat) :
    ∀ (js : List Nat) (dups : Finset Nat), dups ⊆ markInner d i js dups := by
  intro js
  induction js with
  | nil => intro dups; exact Finset.Subset.refl _
  | cons j js ih =>
      intro dups
      show dups ⊆ markInner d i js (if j ∈ dups then dups else if d i j then insert j dups else dups)
      by_cases hj : j ∈ dups
      · simpa [hj] using ih dups
      · by_cases hd : d i j
        · simp only [hj, if_neg, not_false_iff, hd, if_pos]
          exact Finset.Subset.trans (Finset.subset_insert j dups) (ih _)
        · simpa [hj, hd] using ih dups

theorem markInner_mem (d : Nat → Nat → Bool) (i : Nat) :
    ∀ (js : List Nat) (dups : Finset Nat) (x : Nat),
      x ∈ markInner d i js dups → x ∈ dups ∨ (x ∈ js ∧ d i x = true) := by
  intro js
  induction js with
  | nil => intro dups x hx; exact Or.inl hx
  | cons j js ih =>
      intro dups x hx
      rw [show markInner d i (j :: js) dups
          = markInner d i js (if j ∈ dups then dups else if d i j then insert j dups else dups)
          from rfl] at hx
      rcases ih _ x hx with hx' | ⟨hmem, hd⟩
      · by_cases hj : j ∈ dups
        · rw [if_pos hj] at hx'
          exact Or.inl hx'
        · by_cases hd : d i j
          · rw [if_neg hj, if_pos hd] at hx'
            rcases Finset.mem_insert.mp hx' with rfl | hx''
            · exact Or.inr ⟨by simp, hd⟩
            · exact Or.inl hx''
          · rw [if_neg hj, if_neg hd] at hx'
            exact Or.inl hx'
      · exact Or.inr ⟨by simp [hmem], hd⟩

theorem markInner_covers (d : Nat → Nat → Bool) (i : Nat) :
    ∀ (js : List Nat) (dups : Finset Nat) (j : Nat),
      j ∈ js → d i j = true → j ∈ markInner d i js dups := by
  intro js
  induction js with
  | nil => intro dups j hj; simp at hj
  | cons j' js ih =>
      intro dups j hj hd
      rw [show markInner d i (j' :: js) dups
          = markInner d i js (if j' ∈ dups then dups else if d i j' then insert j' dups else dups)
          from rfl]
      rcases List.mem_cons.mp hj with rfl | hmem
      · by_cases hj' : j ∈ dups
        · rw [if_pos hj']
          exact markInner_mono d i js dups hj'
        · rw [if_neg hj', if_pos hd]
          exact markInner_mono d i js _ (Finset.mem_insert_self j dups)
      · exact ih _ j hmem hd

theorem markOuter_mono (d : Nat → Nat → Bool) (n : Nat) :
    ∀ (is : List Nat) (dups : Finset Nat), dups ⊆ markOuter d n is dups := by
  intro is
  induction is with
  | nil => intro dups; exact Finset.Subset.refl _
  | cons i is ih =>
      intro dups
      show dups ⊆ markOuter d n is
        (if i ∈ dups then dups else markInner d i (List.range' (i + 1) (n - (i + 1))) dups)
      by_cases hi : i ∈ dups
      · simpa [hi] using ih dups
      · simp only [hi, if_neg, not_false_iff]
        exact Finset.Subset.trans (markInner_mono d i _ dups) (ih _)

theorem markOuter_mem_bound (d : Nat → Nat → Bool) (n : Nat) :
    ∀ (k p : Nat) (dups : Finset Nat) (x : Nat),
      x ∈ markOuter d n (List.range' p k) dups → x ∈ dups ∨ p < x := by
  intro k
  induction k with
  | zero => intro p dups x hx; exact Or.inl hx
  | succ k ih =>
      intro p dups x hx
      rw [List.range'_succ] at hx
      rw [show markOuter d n (p :: List.range' (p + 1) k) dups
          = markOuter d n (List.range' (p + 1) k)
              (if p ∈ dups then dups
               else markInner d p (List.range' (p + 1) (n - (p + 1))) dups) from rfl] at hx
      rcases ih (p + 1) _ x hx with hx' | hgt
      · by_cases hp : p ∈ dups
        · rw [if_pos hp] at hx'
          exact Or.inl hx'
        · rw [if_neg hp] at hx'
          rcases markInner_mem d p _ dups x hx' with hx'' | ⟨hmem, _⟩
          · exact Or.inl hx''
          · right
            have := List.mem_range'_1.mp hmem
            omega
      · exact Or.inr (by omega)

theorem markOuter_stable (d : Nat → Nat → Bool) (n : Nat) (k p : Nat) (dups : Finset Nat)
    (x : Nat) (hx : x ∉ dups) (hlt : x ≤ p) : x ∉ markOuter d n (List.range' p k) dups := by
  intro hcon
  rcases markOuter_mem_bound d n k p dups x hcon with h | h
  · exact hx h
  · omega

theorem markOuter_witness (d : Nat → Nat → Bool) (n : Nat) :
    ∀ (k p : Nat) (dups : Finset Nat) (x : Nat),
      x ∈ markOuter d n (List.range' p k) dups →
      x ∈ dups ∨ ∃ i, p ≤ i ∧ i < x ∧ x < n ∧ d i x = true
        ∧ i ∉ markOuter d n (List.range' p k) dups := by
  intro k
  induction k with
  | zero => intro p dups x hx; exact Or.inl hx
  | succ k ih =>
      intro p dups x hx
      rw [List.range'_succ] at hx ⊢
      have hstep : markOuter d n (p :: List.range' (p + 1) k) dups
          = markOuter d n (List.range' (p + 1) k)
              (if p ∈ dups then dups
               else markInner d p (List.range' (p + 1) (n - (p + 1))) dups) := rfl
      rw [hstep] at hx ⊢
      rcases ih (p + 1) _ x hx with hx' | ⟨i, hpi, hix, hxn, hd, hnotin⟩
      · by_cases hp : p ∈ dups
        · rw [if_pos hp] at hx' ⊢
          exact Or.inl hx'
        · rw [if_neg hp] at hx' ⊢
          rcases markInner_mem d p _ dups x hx' with hx'' | ⟨hmem, hd⟩
          · exact Or.inl hx''
          · right
            have hx_range := List.mem_range'_1.mp hmem
            refine ⟨p, le_refl p, by omega, by omega, hd, ?_⟩
            refine markOuter_stable d n k (p + 1)
              (markInner d p (List.range' (p + 1) (n - (p + 1))) dups) p ?_ (by omega)
            intro hcon
            rcases markInner_mem d p _ dups p hcon with hc | ⟨hc, _⟩
            · exact hp hc
            · have := List.mem_range'_1.mp hc
              omega
      · exact Or.inr ⟨i, by omega, hix, hxn, hd, hnotin⟩

theorem markOuter_pairwise (d : Nat → Nat → Bool) (n : Nat) :
    ∀ (k p : Nat) (dups : Finset Nat) (i j : Nat),
      p ≤ i → i < p + k → i < j → j < n →
      i ∉ markOuter d n (List.range' p k) dups →
      j ∉ markOuter d n (List.range' p k) dups →
      d i j = false := by
  intro k
  induction k with
  | zero => intro p dups i j h1 h2; omega
  | succ k ih =>
      intro p dups i j hpi hik hij hjn hi hj
      rw [List.range'_succ] at hi hj
      have hstep : markOuter d n (p :: List.range' (p + 1) k) dups
          = markOuter d n (List.range' (p + 1) k)
              (if p ∈ dups then dups
               else markInner d p (List.range' (p + 1) (n - (p + 1))) dups) := rfl
      rw [hstep] at hi hj
      rcases Nat.eq_or_lt_of_le hpi with rfl | hplt
      · -- the current outer iteration handles index p itself
        by_cases hp : p ∈ dups
        · exfalso
          apply hi
          rw [if_pos hp]
          exact markOuter_mono d n _ _ hp
        · rw [if_neg hp] at hi hj
          by_cases hd : d p j
          · exfalso
            apply hj
            apply markOuter_mono d n (List.range' (p + 1) k)
            exact markInner_covers d p _ dups j (List.mem_range'_1.mpr ⟨by omega, by omega⟩) hd
          · simpa using hd
      · exact ih (p + 1) _ i j (by omega) (by omega) hij hjn hi hj

theorem markInner_nochange (d : Nat → Nat → Bool) (i : Nat) :
    ∀ (js : List Nat) (dups : Finset Nat), (∀ j ∈ js, d i j = false) →
      markInner d i js dups = dups := by
  intro js
  induction js with
  | nil => intro dups _; rfl
  | cons j js ih =>
      intro dups hall
      show markInner d i js (if j ∈ dups then dups else if d i j then insert j dups else dups)
          = dups
      have hj : d i j = false := hall j (by simp)
      by_cases hjd : j ∈ dups
      · rw [if_pos hjd]
        exact ih dups (fun x hx => hall x (by simp [hx]))
      · rw [if_neg hjd, hj]
        simp only [Bool.false_eq_true, if_false]
        exact ih dups (fun x hx => hall x (by simp [hx]))

theorem markOuter_empty_of_nodup (d : Nat → Nat → Bool) (n : Nat) :
    ∀ (k p : Nat), (∀ i j, i < j → j < n → d i j = false) →
      markOuter d n (List.range' p k) ∅ = ∅ := by
  intro k
  induction k with
  | zero => intro p _; rfl
  | succ k ih =>
      intro p hall
      rw [List.range'_succ]
      rw [show markOuter d n (p :: List.range' (p + 1) k) (∅ : Finset Nat)
          = markOuter d n (List.range' (p + 1) k)
              (if p ∈ (∅ : Finset Nat) then ∅
               else markInner d p (List.range' (p + 1) (n - (p + 1))) ∅) from rfl]
      rw [if_neg (Finset.not_mem_empty p)]
      rw [markInner_nochange d p _ ∅ ?_]
      · exact ih (p + 1) hall
      · intro j hj
        have := List.mem_range'_1.mp hj
        exact hall p j (by omega) (by omega)

theorem find_duplicates_mem (threshold : ℚ) (ps : List String) (x : Nat) :
    x ∈ find_duplicates threshold ps
      ↔ x ∈ findDuplicatesSet (promptDup threshold ps) ps.length := by
  simp [find_duplicates, Finset.mem_sort]

/-- C5 (confirmed). Every index returned by `find_duplicates` has a
surviving earlier index whose similarity to it reaches the threshold; index
0 is never returned; `deduplicate` and `deduplicate_with_metadata` return
exactly the entries whose indices are not returned, in their original
order; and when entries 0 and 4 are near-identical (similarity at least the
threshold), index 4 is returned and index 0 is not. -/
theorem find_duplicates_spec (threshold : ℚ) (ps : List String) :
    (∀ j ∈ find_duplicates threshold ps, ∃ i, i < j
        ∧ i ∉ find_duplicates threshold ps
        ∧ threshold ≤ calculate_similarity (ps.getD i "") (ps.getD j ""))
  ∧ 0 ∉ find_duplicates threshold ps
  ∧ deduplicate threshold ps
      = (ps.enum.filter (fun p => decide (p.1 ∉ find_duplicates threshold ps))).map Prod.snd
  ∧ (∀ (α : Type) (key : α → String) (rs : List α),
      deduplicate_with_metadata threshold key rs
        = (rs.enum.filter
            (fun p => decide (p.1 ∉ find_duplicates threshold (rs.map key)))).map Prod.snd)
  ∧ (5 ≤ ps.length →
      threshold ≤ calculate_similarity (ps.getD 0 "") (ps.getD 4 "") →
      4 ∈ find_duplicates threshold ps ∧ 0 ∉ find_duplicates threshold ps) := by
  have hzero : ∀ (qs : List String), 0 ∉ find_duplicates threshold qs := by
    intro qs hcon
    rw [find_duplicates_mem] at hcon
    rw [show findDuplicatesSet (promptDup threshold qs) qs.length
        = markOuter (promptDup threshold qs) qs.length (List.range' 0 qs.length) ∅
        from by rw [findDuplicatesSet, List.range_eq_range']] at hcon
    rcases markOuter_mem_bound _ _ _ _ _ _ hcon with h | h
    · exact Finset.not_mem_empty 0 h
    · omega
  refine ⟨?_, hzero ps, ?_, ?_, ?_⟩
  · intro j hj
    rw [find_duplicates_mem] at hj
    rw [show findDuplicatesSet (promptDup threshold ps) ps.length
        = markOuter (promptDup threshold ps) ps.length (List.range' 0 ps.length) ∅
        from by rw [findDuplicatesSet, List.range_eq_range']] at hj
    rcases markOuter_witness _ _ _ _ _ _ hj with h | ⟨i, _, hij, _, hd, hni⟩
    · exact absurd h (Finset.not_mem_empty j)
    · refine ⟨i, hij, ?_, of_decide_eq_true hd⟩
      rw [find_duplicates_mem]
      rw [show findDuplicatesSet (promptDup threshold ps) ps.length
          = markOuter (promptDup threshold ps) ps.length (List.range' 0 ps.length) ∅
          from by rw [findDuplicatesSet, List.range_eq_range']]
      exact hni
  · rw [deduplicate]
    refine congrArg _ ?_
    apply List.filter_congr
    intro p _
    apply decide_eq_decide.mpr
    rw [find_duplicates_mem]
  · intro α key rs
    rw [deduplicate_with_metadata]
    refine congrArg _ ?_
    apply List.filter_congr
    intro p _
    apply decide_eq_decide.mpr
    rw [find_duplicates_mem]
  · intro hlen hsim
    refine ⟨?_, hzero ps⟩
    rw [find_duplicates_mem]
    by_contra h4
    have h0 : 0 ∉ findDuplicatesSet (promptDup threshold ps) ps.length := by
      have := hzero ps
      rwa [find_duplicates_mem] at this
    rw [show findDuplicatesSet (promptDup threshold ps) ps.length
        = markOuter (promptDup threshold ps) ps.length (List.range' 0 ps.length) ∅
        from by rw [findDuplicatesSet, List.range_eq_range']] at h4 h0
    have hfalse := markOuter_pairwise (promptDup threshold ps) ps.length ps.length 0 ∅ 0 4
      (le_refl 0) (by omega) (by omega) (by omega) h0 h4
    rw [show promptDup threshold ps 0 4
        = decide (threshold ≤ calculate_similarity (ps.getD 0 "") (ps.getD 4 "")) from rfl,
      decide_eq_false_iff_not] at hfalse
    exact hfalse hsim

theorem find_duplicates_spec_witness :
    5 ≤ (["ab", "c", "d", "e", "ab"] : List String).length
  ∧ (17 / 20 : ℚ) ≤ calculate_similarity
      ((["ab", "c", "d", "e", "ab"] : List String).getD 0 "")
      ((["ab", "c", "d", "e", "ab"] : List String).getD 4 "")
  ∧ (4 ∈ find_duplicates (17 / 20) ["ab", "c", "d", "e", "ab"]
      ∧ 0 ∉ find_duplicates (17 / 20) ["ab", "c", "d", "e", "ab"]) := by
  have hseq : seqMatchTotal "ab".data "ab".data = 2 := by decide
  have h0 : calculate_similarity "ab" "ab"
      = sequence_similarity "ab" "ab" * (3 / 5) + token_similarity "ab" "ab" * (2 / 5) := rfl
  have h1 : sequence_similarity "ab" "ab" = ratioCalc 2 4 := by
    rw [sequence_similarity, hseq]
    rfl
  have h2 : ratioCalc 2 4 = 1 := by norm_num [ratioCalc]
  have h3 : token_similarity "ab" "ab" = ((1 : Nat) : ℚ) / ((1 : Nat) : ℚ) := rfl
  have hsim : (17 / 20 : ℚ) ≤ calculate_similarity "ab" "ab" := by
    rw [h0, h1, h2, h3]
    norm_num
  exact ⟨by decide, hsim,
    (find_duplicates_spec (17 / 20) ["ab", "c", "d", "e", "ab"]).2.2.2.2 (by decide) hsim⟩

/-! ## Settings (src/config.py) -/

structure Settings where
  frame_interval_seconds : ℚ
  narration_speed_wpm : Nat
  visual_style : String
  dense_mode : Bool
  character_consistency : Bool
  chunk_size : Nat
  scene_duration : ℚ
  enable_deduplication : Bool
  deduplication_threshold : ℚ
  enable_quality_filter : Bool
  min_quality_score : ℚ
  enable_enhancement : Bool
  max_retries : Nat
  initial_retry_delay : ℚ
  max_retry_delay : ℚ
  retry_exponential_base : ℚ
  deriving DecidableEq

/-- The field defaults of `Settings` in src/config.py. -/
def defaultSettings : Settings :=
  { frame_interval_seconds := 6
    narration_speed_wpm := 150
    visual_style := "historical illustration"
    dense_mode := false
    character_consistency := false
    chunk_size := 1000
    scene_duration := 6
    enable_deduplication := true
    deduplication_threshold := 17 / 20
    enable_quality_filter := true
    min_quality_score := 1 / 2
    enable_enhancement := true
    max_retries := 5
    initial_retry_delay := 1
    max_retry_delay := 60
    retry_exponential_base := 2 }

/-! ## StoryProcessor (src/processing/story_processor.py) -/

/-- `StoryProcessor._calculate_buffer_factor`. -/
def calculate_buffer_factor (s : Settings) : ℚ :=
  let buffer : ℚ := 1
  let buffer := if s.enable_deduplication then
      buffer * (if s.deduplication_threshold ≥ 9/10 then 3/2
        else if s.deduplication_threshold ≤ 4/5 then 2
        else 9/5)
    else buffer
  let buffer := if s.enable_quality_filter then
      buffer * (if s.min_quality_score ≥ 3/5 then 8/5
        else if s.min_quality_score ≤ 2/5 then 5/4
        else 7/5)
    else buffer
  min buffer 3

/-- The dedup factor exactly as the claim words it. -/
def specDedupFactor (s : Settings) : ℚ :=
  if ¬ s.enable_deduplication then 1
  else if s.deduplication_threshold ≥ 9/10 then 3/2
  else if s.deduplication_threshold ≤ 4/5 then 2
  else 9/5

/-- The quality factor exactly as the claim words it. -/
def specQualityFactor (s : Settings) : ℚ :=
  if ¬ s.enable_quality_filter then 1
  else if s.min_quality_score ≥ 3/5 then 8/5
  else if s.min_quality_score ≤ 2/5 then 5/4
  else 7/5

/-- One generated scene record (the analyzer-derived fields `shot_type`,
`emotions`, `objects`, `time_of_day`, `weather` are abstracted into one
`analysis` value produced by a per-prompt analyzer function, since they are
pure functions of the prompt text). -/
structure Scene (β : Type) where
  id : String
  timestamp : ℚ
  prompt : String
  chunk : Nat
  scene : Nat
  word_index : Nat
  analysis : β
  deriving DecidableEq

/-- `StoryProcessor._filter_low_quality_scenes`. -/
def filter_low_quality_scenes {β : Type} (s : Settings) (scenes : List (Scene β)) :
    List (Scene β) :=
  scenes.filter (fun sc => decide (s.min_quality_score ≤ score_prompt sc.prompt))

/-- `StoryProcessor._enhance_scenes`. -/
def enhance_scenes {β : Type} (s : Settings) (scenes : List (Scene β)) : List (Scene β) :=
  scenes.map (fun sc => { sc with prompt := enhance_prompt s.enable_enhancement sc.prompt })

/-- The `for idx, scene in enumerate(scenes)` loop of
`StoryProcessor._recalculate_timestamps`. -/
def retimeAux {β : Type} (fi : ℚ) : Nat → List (Scene β) → List (Scene β)
  | _, [] => []
  | idx, sc :: rest => { sc with timestamp := (idx : ℚ) * fi } :: retimeAux fi (idx + 1) rest

/-- `StoryProcessor._recalculate_timestamps`: scene `i` gets timestamp
`i * frame_interval_seconds`. -/
def recalculate_timestamps {β : Type} (s : Settings) (scenes : List (Scene β)) :
    List (Scene β) :=
  retimeAux s.frame_interval_seconds 0 scenes

/-- `StoryProcessor._post_process_scenes`: deduplication, quality
filtering, enhancement, trim to the target count, timestamp recompute —
each stage independently toggled by the settings. -/
def post_process_scenes {β : Type} (s : Settings) (targetCount : Nat)
    (scenes : List (Scene β)) : List (Scene β) :=
  if scenes.isEmpty then scenes
  else
    let scenes := if s.enable_deduplication
      then deduplicate_with_metadata s.deduplication_threshold Scene.prompt scenes
      else scenes
    let scenes := if s.enable_quality_filter
      then filter_low_quality_scenes s scenes else scenes
    let scenes := if s.enable_enhancement then enhance_scenes s scenes else scenes
    let scenes := if targetCount < scenes.length then scenes.take targetCount else scenes
    recalculate_timestamps s scenes

/-- C3 (confirmed). `_calculate_buffer_factor` returns
`min(3.0, dedup_factor * quality_factor)` with the factor tables of the
claim; the default settings (threshold 0.85, min score 0.5, both filters
enabled) give `1.8 * 1.4 = 2.52`, and threshold 0.8 with min score 0.6
gives `2.0 * 1.6 = 3.2`, capped to 3.0. -/
theorem calculate_buffer_factor_spec (s : Settings) :
    calculate_buffer_factor s = min 3 (specDedupFactor s * specQualityFactor s)
  ∧ calculate_buffer_factor defaultSettings = 63 / 25
  ∧ calculate_buffer_factor
      { defaultSettings with deduplication_threshold := 4/5, min_quality_score := 3/5 } = 3 := by
  refine ⟨?_, ?_, ?_⟩
  · rw [calculate_buffer_factor, specDedupFactor, specQualityFactor]
    by_cases hd : s.enable_deduplication <;> by_cases hq : s.enable_quality_filter <;>
      simp [hd, hq, min_comm]
  · rw [calculate_buffer_factor]
    norm_num [defaultSettings, min_def]
  · rw [calculate_buffer_factor]
    norm_num [defaultSettings, min_def]

/-! ## Claim C2: post-processing idempotence -/

/-- A prompt whose quality score drops across enhancement: 66 characters
long (length point 1.0), but with the duplicated long token removed it has
45 characters (length point 0.5); it contains "detailed", so no suffix is
appended that could compensate. -/
def cexPrompt : String :=
  "detailed woman shot mood abcdefghijklmnopqrst abcdefghijklmnopqrst"

def cexSettings : Settings :=
  { defaultSettings with enable_deduplication := false, min_quality_score := 9/20 }

def cexScene : Scene Unit :=
  { id := "scene_0_0", timestamp := 0, prompt := cexPrompt,
    chunk := 0, scene := 0, word_index := 0, analysis := () }

theorem score_cexPrompt : score_prompt cexPrompt = 9 / 20 := by
  have hlen : cexPrompt.length = 66 := by decide
  have hv : countPresent visualKeywords (lowerStr cexPrompt) = 2 := by decide
  have hsub : anyPresent subjectKeywords (lowerStr cexPrompt) = true := by decide
  have hd : countPresent descriptiveKeywords (lowerStr cexPrompt) = 1 := by decide
  have hcol : anyPresent colorLightingKeywords (lowerStr cexPrompt) = false := by decide
  have hwe : (splitWS (lowerStr cexPrompt)).isEmpty = false := by decide
  have hwl : (splitWS (lowerStr cexPrompt)).length = 6 := by decide
  have hwd : (splitWS (lowerStr cexPrompt)).dedup.length = 5 := by decide
  have htech : anyPresent technicalKeywords (lowerStr cexPrompt) = false := by decide
  rw [score_prompt, hlen, hv, hsub, hd, hcol, hwe, hwl, hwd, htech]
  norm_num [min_def]

def cexEnhanced : String := "Detailed woman shot mood abcdefghijklmnopqrst"

theorem enhance_cexPrompt : enhance_prompt true cexPrompt = cexEnhanced := by decide

theorem score_cexEnhanced : score_prompt cexEnhanced = 2 / 5 := by
  have hlen : cexEnhanced.length = 45 := by decide
  have hv : countPresent visualKeywords (lowerStr cexEnhanced) = 2 := by decide
  have hsub : anyPresent subjectKeywords (lowerStr cexEnhanced) = true := by decide
  have hd : countPresent descriptiveKeywords (lowerStr cexEnhanced) = 1 := by decide
  have hcol : anyPresent colorLightingKeywords (lowerStr cexEnhanced) = false := by decide
  have hwe : (splitWS (lowerStr cexEnhanced)).isEmpty = false := by decide
  have hwl : (splitWS (lowerStr cexEnhanced)).length = 5 := by decide
  have hwd : (splitWS (lowerStr cexEnhanced)).dedup.length = 5 := by decide
  have htech : anyPresent technicalKeywords (lowerStr cexEnhanced) = false := by decide
  rw [score_prompt, hlen, hv, hsub, hd, hcol, hwe, hwl, hwd, htech]
  norm_num [min_def]

def cexSceneEnhanced : Scene Unit :=
  { id := "scene_0_0", timestamp := 0, prompt := cexEnhanced,
    chunk := 0, scene := 0, word_index := 0, analysis := () }

theorem post_process_cex_once :
    post_process_scenes cexSettings 5 [cexScene] = [cexSceneEnhanced] := by
  rw [post_process_scenes]
  have hflags : cexSettings.enable_deduplication = false
      ∧ cexSettings.enable_quality_filter = true
      ∧ cexSettings.enable_enhancement = true := by
    refine ⟨rfl, rfl, rfl⟩
  simp only [hflags.1, hflags.2.1, hflags.2.2, Bool.false_eq_true, if_false, if_true,
    List.isEmpty_cons]
  rw [filter_low_quality_scenes]
  have hkeep : decide (cexSettings.min_quality_score ≤ score_prompt cexScene.prompt) = true := by
    rw [show cexScene.prompt = cexPrompt from rfl, score_cexPrompt]
    norm_num [cexSettings]
  simp only [List.filter_cons, hkeep, if_true, List.filter_nil]
  rw [enhance_scenes]
  simp only [List.map_cons, List.map_nil]
  rw [show enhance_prompt cexSettings.enable_enhancement cexScene.prompt
      = enhance_prompt true cexPrompt from rfl, enhance_cexPrompt]
  simp only [List.length_cons, List.length_nil]
  norm_num
  rw [recalculate_timestamps, retimeAux, retimeAux]
  show [{ cexScene with prompt := cexEnhanced, timestamp := ((0 : Nat) : ℚ) * 6 }]
      = [cexSceneEnhanced]
  norm_num [cexScene, cexSceneEnhanced]

theorem post_process_cex_twice :
    post_process_scenes cexSettings 5 [cexSceneEnhanced] = [] := by
  rw [post_process_scenes]
  simp only [show cexSettings.enable_deduplication = false from rfl,
    show cexSettings.enable_quality_filter = true from rfl,
    show cexSettings.enable_enhancement = true from rfl,
    Bool.false_eq_true, if_false, if_true, List.isEmpty_cons]
  rw [filter_low_quality_scenes]
  have hdrop : decide (cexSettings.min_quality_score ≤ score_prompt cexSceneEnhanced.prompt)
      = false := by
    rw [show cexSceneEnhanced.prompt = cexEnhanced from rfl, score_cexEnhanced]
    norm_num [cexSettings]
  simp only [List.filter_cons, hdrop, Bool.false_eq_true, if_false, List.filter_nil]
  rw [enhance_scenes]
  simp only [List.map_nil, List.length_nil]
  norm_num
  rfl

/-- Counterexample to C2 as stated: with deduplication disabled, the
quality filter at min score 0.45 and enhancement enabled, post-processing
the single-scene list once keeps the scene (score 0.45) and rewrites its
prompt (new score 0.40); the second application then removes it, so
post-processing is not idempotent. -/
theorem post_process_not_idempotent :
    post_process_scenes cexSettings 5 (post_process_scenes cexSettings 5 [cexScene])
      ≠ post_process_scenes cexSettings 5 [cexScene] := by
  rw [post_process_cex_once, post_process_cex_twice]
  simp

theorem retimeAux_idem {β : Type} (fi : ℚ) :
    ∀ (i : Nat) (l : List (Scene β)), retimeAux fi i (retimeAux fi i l) = retimeAux fi i l := by
  intro i l
  induction l generalizing i with
  | nil => rfl
  | cons sc rest ih =>
      show retimeAux fi i ({ sc with timestamp := (i : ℚ) * fi } :: retimeAux fi (i + 1) rest)
          = _
      rw [retimeAux]
      rw [ih (i + 1)]
      rfl

theorem retimeAux_map_prompt {β : Type} (fi : ℚ) :
    ∀ (i : Nat) (l : List (Scene β)),
      (retimeAux fi i l).map Scene.prompt = l.map Scene.prompt := by
  intro i l
  induction l generalizing i with
  | nil => rfl
  | cons sc rest ih =>
      rw [retimeAux]
      simp only [List.map_cons]
      rw [ih (i + 1)]

theorem retimeAux_length {β : Type} (fi : ℚ) (i : Nat) (l : List (Scene β)) :
    (retimeAux fi i l).length = l.length := by
  have := congrArg List.length (retimeAux_map_prompt fi i l)
  simpa using this

theorem mem_enum_getElem {α : Type} (l : List α) :
    ∀ p ∈ l.enum, ∃ h : p.1 < l.length, p.2 = l[p.1] := by
  intro p hp
  have hg : l.get? p.1 = some p.2 := List.mem_enum_iff_get?.mp hp
  obtain ⟨h1, hv⟩ := List.get?_eq_some.mp hg
  exact ⟨h1, by rw [← hv]; rfl⟩

theorem enum_pairwise_fst_lt {α : Type} (l : List α) :
    List.Pairwise (fun p q : Nat × α => p.1 < q.1) l.enum := by
  rw [List.pairwise_iff_getElem]
  intro i j hi hj hij
  have hgi := List.getElem_enum l i hi  -- shape check below
  rw [List.getElem_enum, List.getElem_enum]
  exact hij

theorem dedup_with_metadata_pairwise {α : Type} (thr : ℚ) (key : α → String) (rs : List α) :
    List.Pairwise (fun a b => is_duplicate thr (key a) (key b) = false)
      (deduplicate_with_metadata thr key rs) := by
  rw [deduplicate_with_metadata]
  rw [List.pairwise_map]
  have hpw : List.Pairwise (fun p q : Nat × α => p.1 < q.1)
      (rs.enum.filter
        (fun p => decide (p.1 ∉ findDuplicatesSet (promptDup thr (rs.map key)) (rs.map key).length))) :=
    (enum_pairwise_fst_lt rs).filter _
  refine hpw.imp_of_mem ?_
  intro p q hp hq hlt
  have hpmem := List.mem_filter.mp hp
  have hqmem := List.mem_filter.mp hq
  have hpS := of_decide_eq_true hpmem.2
  have hqS := of_decide_eq_true hqmem.2
  obtain ⟨hplen, hpval⟩ := mem_enum_getElem rs p hpmem.1
  obtain ⟨hqlen, hqval⟩ := mem_enum_getElem rs q hqmem.1
  have hkey : ∀ (i : Nat) (h : i < rs.length), (rs.map key).getD i "" = key rs[i] := by
    intro i h
    rw [List.getD_eq_getElem (rs.map key) "" (by simpa using h)]
    simp
  have hfalse : promptDup thr (rs.map key) p.1 q.1 = false := by
    have hS0 : (0 : Nat) ≤ p.1 := Nat.zero_le _
    rw [show findDuplicatesSet (promptDup thr (rs.map key)) (rs.map key).length
        = markOuter (promptDup thr (rs.map key)) (rs.map key).length
            (List.range' 0 (rs.map key).length) ∅
        from by rw [findDuplicatesSet, List.range_eq_range']] at hpS hqS
    exact markOuter_pairwise (promptDup thr (rs.map key)) (rs.map key).length
      (rs.map key).length 0 ∅ p.1 q.1 hS0 (by simpa using hplen) hlt
      (by simpa using hqlen) hpS hqS
  rw [promptDup, hkey p.1 hplen, hkey q.1 hqlen, ← hpval, ← hqval] at hfalse
  exact hfalse

theorem dedup_with_metadata_id {α : Type} (thr : ℚ) (key : α → String) (rs : List α)
    (h : List.Pairwise (fun a b => is_duplicate thr (key a) (key b) = false) rs) :
    deduplicate_with_metadata thr key rs = rs := by
  rw [deduplicate_with_metadata]
  have hkey : ∀ (i : Nat) (hi : i < rs.length), (rs.map key).getD i "" = key rs[i] := by
    intro i hi
    rw [List.getD_eq_getElem (rs.map key) "" (by simpa using hi)]
    simp
  have hset : findDuplicatesSet (promptDup thr (rs.map key)) (rs.map key).length = ∅ := by
    rw [findDuplicatesSet, List.range_eq_range']
    apply markOuter_empty_of_nodup
    intro i j hij hjn
    have hjlen : j < rs.length := by simpa using hjn
    have hilen : i < rs.length := by omega
    rw [promptDup, hkey i hilen, hkey j hjlen]
    have := List.pairwise_iff_getElem.mp h i j hilen hjlen hij
    exact this
  rw [hset]
  have hfilter : rs.enum.filter (fun p => decide (p.1 ∉ (∅ : Finset Nat))) = rs.enum := by
    apply List.filter_eq_self.mpr
    intro a _
    simp
  rw [hfilter, List.enum_map_snd]

theorem filter_low_quality_id {β : Type} (s : Settings) (l : List (Scene β))
    (h : ∀ sc ∈ l, s.min_quality_score ≤ score_prompt sc.prompt) :
    filter_low_quality_scenes s l = l := by
  rw [filter_low_quality_scenes]
  apply List.filter_eq_self.mpr
  intro sc hsc
  exact decide_eq_true (h sc hsc)

theorem post_process_unfold {β : Type} (s : Settings) (target : Nat) (scenes : List (Scene β))
    (hne : scenes.isEmpty = false) :
    post_process_scenes s target scenes
      = recalculate_timestamps s
          (let l1 := if s.enable_deduplication
              then deduplicate_with_metadata s.deduplication_threshold Scene.prompt scenes
              else scenes
            let l2 := if s.enable_quality_filter then filter_low_quality_scenes s l1 else l1
            let l3 := if s.enable_enhancement then enhance_scenes s l2 else l2
            if target < l3.length then l3.take target else l3) := by
  rw [post_process_scenes, if_neg (by simp [hne])]

/-- C2 (corrected from the claim; see the counterexample). With enhancement
disabled, post-processing is idempotent: the second application removes no
scene and changes no prompt or timestamp; and the timestamp recompute step
is unconditionally stable under repetition. (With enhancement enabled
idempotence fails, because enhancement rewrites prompts and can lower a
scene's quality score below the filter threshold.) -/
theorem post_process_idempotent_no_enhancement {β : Type} (s : Settings) (target : Nat)
    (scenes : List (Scene β)) (henh : s.enable_enhancement = false) :
    post_process_scenes s target (post_process_scenes s target scenes)
      = post_process_scenes s target scenes
  ∧ ∀ l : List (Scene β),
      recalculate_timestamps s (recalculate_timestamps s l) = recalculate_timestamps s l := by
  refine ⟨?_, fun l => retimeAux_idem s.frame_interval_seconds 0 l⟩
  by_cases hemp : scenes.isEmpty
  · have h1 : post_process_scenes s target scenes = scenes := by
      rw [post_process_scenes, if_pos hemp]
    rw [h1]
    exact h1
  · have hemp' : scenes.isEmpty = false := by simpa using hemp
    have hmain := post_process_unfold s target scenes hemp'
    simp only [henh, Bool.false_eq_true, if_false] at hmain
    rw [hmain]
    set l1 := (if s.enable_deduplication
        then deduplicate_with_metadata s.deduplication_threshold Scene.prompt scenes
        else scenes) with hl1
    set l2 := (if s.enable_quality_filter then filter_low_quality_scenes s l1 else l1) with hl2
    set l4 := (if target < l2.length then l2.take target else l2) with hl4
    set out := recalculate_timestamps s l4 with hout
    have houtprompts : out.map Scene.prompt = l4.map Scene.prompt :=
      retimeAux_map_prompt s.frame_interval_seconds 0 l4
    have houtlen : out.length = l4.length := retimeAux_length s.frame_interval_seconds 0 l4
    have hlen4 : l4.length ≤ target := by
      rw [hl4]
      by_cases ht : target < l2.length
      · rw [if_pos ht]
        simp [List.length_take]
      · rw [if_neg ht]
        omega
    have hl4sub : l4.Sublist l2 := by
      rw [hl4]
      by_cases ht : target < l2.length
      · rw [if_pos ht]
        exact List.take_sublist target l2
      · rw [if_neg ht]
    have hl2sub : l2.Sublist l1 := by
      rw [hl2]
      by_cases hq : s.enable_quality_filter
      · rw [if_pos hq, filter_low_quality_scenes]
        exact List.filter_sublist l1
      · rw [if_neg hq]
    by_cases hoe : out.isEmpty
    · rw [post_process_scenes, if_pos hoe]
    · have hoe' : out.isEmpty = false := by simpa using hoe
      rw [post_process_unfold s target out hoe']
      simp only [henh, Bool.false_eq_true, if_false]
      have hded : (if s.enable_deduplication
          then deduplicate_with_metadata s.deduplication_threshold Scene.prompt out
          else out) = out := by
        by_cases hd : s.enable_deduplication
        · rw [if_pos hd]
          apply dedup_with_metadata_id
          have hpair1 : List.Pairwise
              (fun a b : Scene β =>
                is_duplicate s.deduplication_threshold a.prompt b.prompt = false) l1 := by
            rw [hl1, if_pos hd]
            exact dedup_with_metadata_pairwise s.deduplication_threshold Scene.prompt scenes
          have hpair4 := (hpair1.sublist hl2sub).sublist hl4sub
          have hpmap : List.Pairwise
              (fun a b : String => is_duplicate s.deduplication_threshold a b = false)
              (l4.map Scene.prompt) := List.pairwise_map.mpr hpair4
          rw [← houtprompts] at hpmap
          exact List.pairwise_map.mp hpmap
        · rw [if_neg hd]
      rw [hded]
      have hfil : (if s.enable_quality_filter then filter_low_quality_scenes s out else out)
          = out := by
        by_cases hq : s.enable_quality_filter
        · rw [if_pos hq]
          apply filter_low_quality_id
          intro sc hsc
          have hscp : sc.prompt ∈ l4.map Scene.prompt := by
            rw [← houtprompts]
            exact List.mem_map_of_mem Scene.prompt hsc
          have hscp2 : sc.prompt ∈ l2.map Scene.prompt :=
            (hl4sub.map Scene.prompt).mem hscp
          obtain ⟨sc2, hsc2, hsc2p⟩ := List.mem_map.mp hscp2
          have hsc2f : sc2 ∈ filter_low_quality_scenes s l1 := by
            rw [hl2, if_pos hq] at hsc2
            exact hsc2
          rw [filter_low_quality_scenes] at hsc2f
          have hdec : decide (s.min_quality_score ≤ score_prompt sc2.prompt) = true :=
            (List.mem_filter.mp hsc2f).2
          rw [← hsc2p]
          exact of_decide_eq_true hdec
        · rw [if_neg hq]
      rw [hfil]
      rw [if_neg (by omega)]
      rw [hout, recalculate_timestamps, recalculate_timestamps]
      exact retimeAux_idem s.frame_interval_seconds 0 l4

theorem post_process_idempotent_no_enhancement_witness :
    ({ defaultSettings with enable_enhancement := false } : Settings).enable_enhancement = false
  ∧ (post_process_scenes { defaultSettings with enable_enhancement := false } 5
        (post_process_scenes { defaultSettings with enable_enhancement := false } 5
          ([] : List (Scene Unit)))
      = post_process_scenes { defaultSettings with enable_enhancement := false } 5
          ([] : List (Scene Unit))
    ∧ ∀ l : List (Scene Unit),
        recalculate_timestamps { defaultSettings with enable_enhancement := false }
            (recalculate_timestamps { defaultSettings with enable_enhancement := false } l)
          = recalculate_timestamps { defaultSettings with enable_enhancement := false } l) :=
  ⟨rfl, post_process_idempotent_no_enhancement
    { defaultSettings with enable_enhancement := false } 5 ([] : List (Scene Unit)) rfl⟩

/-! ## PromptTemplates (src/processing/prompt_templates.py) and the
process_file pipeline (claim C1) -/

/-- `PromptTemplates.get_system_prompt`. -/
def get_system_prompt (visualStyle : String) (denseMode : Bool) : String :=
  let detailLevel := if denseMode then "highly detailed and specific"
    else "concise but descriptive"
  "You are an expert at creating image generation prompts for biographical video content.\n\n"
  ++ "Your task is to analyze biographical text and generate " ++ detailLevel
  ++ " prompts following a 12-element structure:\n\n"
  ++ "1. SHOT TYPE: Specify camera angle and framing (wide shot, medium shot, close-up, extreme close-up, tracking shot, aerial shot, over-the-shoulder, etc.)\n\n"
  ++ "2. SUBJECT: Main characters/people with physical appearance details (age, build, facial features, posture)\n\n"
  ++ "3. ACTION: What the subject is doing, including micro-expressions and body language\n\n"
  ++ "4. SETTING: Location, architecture, interior/exterior details, time period indicators\n\n"
  ++ "5. COMPOSITION: Rule of thirds, camera position, visual balance, depth\n\n"
  ++ "6. LIGHTING: Light source, direction, quality (soft/hard), color temperature\n\n"
  ++ "7. MOOD: Overall atmosphere and emotional tone\n\n"
  ++ "8. KEY DETAILS: Important objects, textures, materials, effects (motion blur, depth of field)\n\n"
  ++ "9. COLOR PALETTE: Specific colors and color relationships (warm/cool, contrasting/harmonious)\n\n"
  ++ "10. STYLE: Visual style - \"" ++ visualStyle ++ "\"\n\n"
  ++ "11. TECHNICAL: Quality descriptors (8k, highly detailed, cinematic, photorealistic, etc.)\n\n"
  ++ "12. CHARACTER APPEARANCE: Consistent character descriptions if applicable\n\n"
  ++ "Generate prompts that are visually rich, cinematically compelling, and appropriate for "
  ++ visualStyle ++ " style.\n"
  ++ "Each prompt should be suitable for image generation AI like Midjourney, DALL-E, or Stable Diffusion."

/-- `PromptTemplates.get_chunk_analysis_prompt`, at the `process_file` call
site where `character_profiles` is `None` (so the character-context block
is empty). -/
def get_chunk_analysis_prompt (chunkText : String) (chunkIndex totalChunks promptsNeeded : Nat)
    (visualStyle : String) : String :=
  "Analyze the following biographical text segment (chunk " ++ toString (chunkIndex + 1)
  ++ " of " ++ toString totalChunks ++ ") and generate " ++ toString promptsNeeded
  ++ " image prompts.\n\n\n\nTEXT SEGMENT:\n" ++ chunkText
  ++ "\n\nGenerate exactly " ++ toString promptsNeeded
  ++ " image prompts following the 12-element structure. Each prompt should:\n"
  ++ "- Capture a key moment or scene from the text\n"
  ++ "- Progress chronologically through the segment\n"
  ++ "- Include all 12 elements (shot type, subject, action, setting, composition, lighting, mood, key details, color palette, style, technical, character appearance)\n"
  ++ "- Be visually distinct and cinematically compelling\n"
  ++ "- Match the \"" ++ visualStyle ++ "\" style\n\n"
  ++ "Format each prompt as a single paragraph with clear separation of the 12 elements.\n"
  ++ "Return ONLY the prompts, one per line, no numbering or extra text."

/-- Python `s.strip()`: remove leading and trailing whitespace. -/
def pyStrip (s : String) : String :=
  String.mk (((s.data.dropWhile pySpace).reverse.dropWhile pySpace).reverse)

def splitOnCharAux (sep : Char) : List Char → List Char → List (List Char)
  | [], acc => [acc.reverse]
  | c :: cs, acc =>
      if c = sep then acc.reverse :: splitOnCharAux sep cs []
      else splitOnCharAux sep cs (c :: acc)

/-- Python `s.split('\n')` (keeps empty pieces). -/
def splitLines (s : String) : List String :=
  (splitOnCharAux '\n' s.data []).map String.mk

def startsWithHash (s : String) : Bool :=
  match s.data with
  | [] => false
  | c :: _ => c = '#'

/-- Python `'\n'.join(l)`. -/
def joinNl : List String → String
  | [] => ""
  | [t] => t
  | t :: ts => t ++ "\n" ++ joinNl ts

/-- `StoryProcessor._get_recent_prompts`: the prompts of the last `count`
scenes. -/
def get_recent_prompts {β : Type} (scenes : List (Scene β)) (count : Nat) : List String :=
  if scenes.isEmpty then []
  else (if count ≤ scenes.length then scenes.drop (scenes.length - count) else scenes).map
    Scene.prompt

/-- `StoryProcessor._process_chunk` over a deterministic generation client
`client user_prompt system_prompt = response` (the `RetryHandler.retry`
wrapper returns the first attempt's value for a non-raising deterministic
operation — see `retryLoop_ok` with `k = 0`) and a per-prompt scene
analyzer `analyze`. -/
def process_chunk {β : Type} (client : String → String → String) (analyze : String → β)
    (s : Settings) (chunkText : String) (chunkIdx totalChunks promptsNeeded sceneOffset : Nat)
    (recentPrompts : List String) : List (Scene β) :=
  let systemPrompt := get_system_prompt s.visual_style s.dense_mode
  let contextNote := if recentPrompts.isEmpty then ""
    else "\n\nIMPORTANT: Avoid repetition. Recent prompts for context "
      ++ "(generate different shots, angles, and visual elements):\n"
      ++ joinNl (recentPrompts.map (fun p => "- " ++ p))
  let userPrompt := get_chunk_analysis_prompt chunkText chunkIdx totalChunks promptsNeeded
      s.visual_style ++ contextNote
  let response := client userPrompt systemPrompt
  let promptLines := ((splitLines (pyStrip response)).map pyStrip).filter
    (fun l => !(l == "") && !(startsWithHash l))
  (promptLines.take promptsNeeded).enum.map (fun p =>
    { id := "scene_" ++ toString chunkIdx ++ "_" ++ toString p.1
      timestamp := ((sceneOffset + p.1 : Nat) : ℚ) * s.frame_interval_seconds
      prompt := p.2
      chunk := chunkIdx
      scene := p.1
      word_index := chunkIdx * s.chunk_size
      analysis := analyze p.2 })

/-- The nested `"metadata"` dict built by `_load_or_create_metadata`
(`character_profiles` is always the empty dict `{}` there and is kept as
an association list; the quality-metric entries added at the very end of
`process_file` are pure functions of the final scene list and are not
carried as fields). -/
structure MetaInfo where
  total_prompts : Int
  total_duration_seconds : ℚ
  frame_interval_seconds : ℚ
  narration_speed_wpm : Nat
  visual_style : String
  character_profiles : List (String × String)
  source_word_count : Nat
  total_chunks : Nat
  processed_chunks : Nat
  dense_mode : Bool
  character_consistency : Bool
  deriving DecidableEq

/-- The top-level checkpoint/metadata dict of `process_file`: keys
`"metadata"`, `"scenes"` and the resume cursor `"processed_chunks"`. -/
structure Metadata (β : Type) where
  info : MetaInfo
  scenes : List (Scene β)
  processed_chunks : Nat
  deriving DecidableEq

/-- `StoryProcessor._load_or_create_metadata`: the file system is passed
in as `checkpoint : Option (Metadata β)` — `some m` iff the partial file
exists and parses as `m`, in which case it is returned as-is; otherwise a
fresh metadata record with cursor 0 and no scenes is created. -/
def load_or_create_metadata {β : Type} (s : Settings) (checkpoint : Option (Metadata β))
    (tl : Timeline) (totalChunks wordCount : Nat) : Metadata β :=
  match checkpoint with
  | some m => m
  | none =>
      { info :=
          { total_prompts := tl.totalPrompts
            total_duration_seconds := tl.totalDurationSeconds
            frame_interval_seconds := s.frame_interval_seconds
            narration_speed_wpm := s.narration_speed_wpm
            visual_style := s.visual_style
            character_profiles := []
            source_word_count := wordCount
            total_chunks := totalChunks
            processed_chunks := 0
            dense_mode := s.dense_mode
            character_consistency := s.character_consistency }
        scenes := []
        processed_chunks := 0 }

/-- The `for chunk_idx in range(start_chunk, total_chunks)` loop of
`process_file` (lines 130–165), with `fuel = total_chunks - chunk_idx`
iterations left. Each iteration generates the chunk's scenes, extends
`all_scenes`, sets the top-level `processed_chunks` cursor and `scenes`
of the metadata, and appends the saved checkpoint to the trace. Faithful
to the bug at line 125: the caller starts `all_scenes` at `[]` even when
resuming from a checkpoint. Returns the accumulated scenes, the final
metadata and the list of checkpoints written. -/
def runChunksAux {β : Type} (client : String → String → String) (analyze : String → β)
    (s : Settings) (chunks : List String) (totalChunks promptsPerChunk : Nat) :
    Nat → Nat → List (Scene β) → Metadata β → List (Metadata β) →
      List (Scene β) × Metadata β × List (Metadata β)
  | 0, _, allScenes, meta, saves => (allScenes, meta, saves)
  | fuel + 1, chunkIdx, allScenes, meta, saves =>
      let chunkText := chunks.getD chunkIdx ""
      let recentPrompts := get_recent_prompts allScenes 3
      let chunkScenes := process_chunk client analyze s chunkText chunkIdx totalChunks
        promptsPerChunk allScenes.length recentPrompts
      let allScenes2 := allScenes ++ chunkScenes
      let meta2 := { meta with processed_chunks := chunkIdx + 1, scenes := allScenes2 }
      runChunksAux client analyze s chunks totalChunks promptsPerChunk fuel (chunkIdx + 1)
        allScenes2 meta2 (saves ++ [meta2])

/-- The value `process_file` returns (the metadata dict, whose top-level
`"total_prompts"` key is added at line 181), together with the trace of
checkpoints written to the partial file along the way. -/
structure ProcessResult (β : Type) where
  total_prompts : Nat
  metadata : Metadata β
  saves : List (Metadata β)
  deriving DecidableEq

/-- `StoryProcessor.process_file` over a deterministic generation client
and per-prompt scene analyzer, the file system abstracted into the
explicit `checkpoint` argument. `buffered_prompts = int(total_prompts *
buffer_factor)` is computed with `pyInt`; since `total_prompts ≥ 1` and
every buffer factor is `≥ 1`, it is never negative, so Python's floor
division `buffered_prompts // total_chunks` is `Nat` division on
`.toNat`. The chunk loop `range(start_chunk, total_chunks)` is
`runChunksAux` with fuel `total_chunks - start_chunk`, started — as at
line 125 of the source — from the empty scene list regardless of the
checkpoint's accumulated scenes. -/
def process_file {β : Type} (client : String → String → String) (analyze : String → β)
    (s : Settings) (text : String) (checkpoint : Option (Metadata β)) :
    Except String (ProcessResult β) :=
  let wordCount := count_words text
  let tl := calculate_timeline wordCount s.narration_speed_wpm s.frame_interval_seconds
  let bufferedPrompts := pyInt ((tl.totalPrompts : ℚ) * calculate_buffer_factor s)
  match split_into_chunks s.chunk_size text with
  | .error e => .error ("Processing failed: " ++ e)
  | .ok chunks =>
      let totalChunks := chunks.length
      let meta := load_or_create_metadata s checkpoint tl totalChunks wordCount
      let promptsPerChunk := max 1 (bufferedPrompts.toNat / totalChunks)
      let startChunk := meta.processed_chunks
      let res := runChunksAux client analyze s chunks totalChunks promptsPerChunk
        (totalChunks - startChunk) startChunk [] meta []
      let allScenes := post_process_scenes s tl.totalPrompts.toNat res.1
      let meta2 := { res.2.1 with
        info := { res.2.1.info with total_prompts := (allScenes.length : Int) }
        scenes := allScenes }
      .ok { total_prompts := allScenes.length, metadata := meta2, saves := res.2.2 }

/-! ## Claim C1: resume equivalence -/

/-- Evaluation form of `process_file` once the three `ℚ`-valued
quantities — the timeline, the buffered prompt count and the chunk
split — have been computed. -/
theorem process_file_eval {β : Type} (client : String → String → String) (analyze : String → β)
    (s : Settings) (text : String) (checkpoint : Option (Metadata β))
    (tl : Timeline) (buffered : Int) (chunks : List String)
    (h1 : calculate_timeline (count_words text) s.narration_speed_wpm
        s.frame_interval_seconds = tl)
    (h2 : pyInt ((tl.totalPrompts : ℚ) * calculate_buffer_factor s) = buffered)
    (h3 : split_into_chunks s.chunk_size text = Except.ok chunks) :
    process_file client analyze s text checkpoint =
      (let meta := load_or_create_metadata s checkpoint tl chunks.length (count_words text)
       let res := runChunksAux client analyze s chunks chunks.length
         (max 1 (buffered.toNat / chunks.length))
         (chunks.length - meta.processed_chunks) meta.processed_chunks [] meta []
       let allScenes := post_process_scenes s tl.totalPrompts.toNat res.1
       Except.ok { total_prompts := allScenes.length
                   metadata := { res.2.1 with
                                 info := { res.2.1.info with
                                           total_prompts := (allScenes.length : Int) }
                                 scenes := allScenes }
                   saves := res.2.2 }) := by
  simp only [process_file, h1, h2, h3]

/-- The C1 scenario input text: four words, two chunks of two. -/
def c1text : String := "w1 w2 w3 w4"

/-- The C1 scenario settings: chunk size 2, every post-processing toggle
off (so post-processing only trims to the target and recomputes
timestamps, isolating the resume behaviour). -/
def c1settings : Settings :=
  { defaultSettings with chunk_size := 2
                         enable_deduplication := false
                         enable_quality_filter := false
                         enable_enhancement := false }

/-- A deterministic generation client: answers "PB" whenever the user
prompt mentions the chunk-1 word "w3" (only chunk 1's text does), else
"PA". -/
def c1client (userPrompt : String) (_sysPrompt : String) : String :=
  if subOccurs "w3" userPrompt then "PB" else "PA"

/-- A trivial scene analyzer. -/
def c1an : String → Unit := fun _ => ()

/-- The (id, prompt) projection of a scene — the claim's observable. -/
def sceneKey {β : Type} (sc : Scene β) : String × String := (sc.id, sc.prompt)

/-- The (id, prompt) pairs of the exported scene list of a run. -/
def resultKeys {β : Type} : Except String (ProcessResult β) → List (String × String)
  | .error _ => []
  | .ok r => r.metadata.scenes.map sceneKey

/-- The uninterrupted run. -/
def c1fullRun : Except String (ProcessResult Unit) :=
  process_file c1client c1an c1settings c1text none

/-- The checkpoint left on disk when the uninterrupted run is interrupted
right after completing chunk 0: the first checkpoint it saves. -/
def c1firstCheckpoint : Option (Metadata Unit) :=
  match c1fullRun with
  | .error _ => none
  | .ok r => r.saves.head?

/-- The run restarted from that checkpoint. -/
def c1resumedRun : Except String (ProcessResult Unit) :=
  process_file c1client c1an c1settings c1text c1firstCheckpoint

/-- The timeline of the C1 scenario: 4 words at 150 wpm is 1.6 seconds of
narration, well under one 6-second frame, so the target is the minimum 1. -/
def c1tl : Timeline :=
  { totalWordCount := 4
    narrationSpeedWpm := 150
    totalDurationSeconds := 8/5
    totalDurationMinutes := 2/75
    frameIntervalSeconds := 6
    totalPrompts := 1
    wordsPerPrompt := 4 }

theorem c1_timeline :
    calculate_timeline (count_words c1text) c1settings.narration_speed_wpm
      c1settings.frame_interval_seconds = c1tl := by
  rw [show count_words c1text = 4 from rfl,
    show c1settings.narration_speed_wpm = 150 from rfl,
    show c1settings.frame_interval_seconds = (6 : ℚ) from rfl]
  rw [calculate_timeline]
  norm_num [pyInt, c1tl, Timeline.mk.injEq]

theorem c1_buffered :
    pyInt ((c1tl.totalPrompts : ℚ) * calculate_buffer_factor c1settings) = 1 := by
  rw [show c1tl.totalPrompts = 1 from rfl, calculate_buffer_factor]
  norm_num [show c1settings.enable_deduplication = false from rfl,
    show c1settings.enable_quality_filter = false from rfl, pyInt, min_def]

theorem c1_chunks :
    split_into_chunks c1settings.chunk_size c1text = Except.ok ["w1 w2", "w3 w4"] := rfl

set_option maxRecDepth 100000

/-- C1 (code_bug). Resume equivalence fails: on the four-word input with
chunk size 2 and a deterministic client, the uninterrupted run's first
saved checkpoint has cursor `processed_chunks = 1` and carries chunk 0's
accumulated scene ("scene_0_0", "PA"); the uninterrupted run exports
[("scene_0_0", "PA")], but the run restarted from that checkpoint
exports [("scene_1_0", "PB")] — because `process_file` (line 125)
restarts `all_scenes` at `[]` instead of the checkpoint's accumulated
scenes, the resumed output drops chunk 0's scene and differs from the
uninterrupted run. -/
theorem resume_loses_checkpoint_scenes :
    c1firstCheckpoint.map Metadata.processed_chunks = some 1
  ∧ c1firstCheckpoint.map (fun m => m.scenes.map sceneKey) = some [("scene_0_0", "PA")]
  ∧ resultKeys c1fullRun = [("scene_0_0", "PA")]
  ∧ resultKeys c1resumedRun = [("scene_1_0", "PB")]
  ∧ resultKeys c1resumedRun ≠ resultKeys c1fullRun := by
  have hfull := process_file_eval c1client c1an c1settings c1text none c1tl 1
    ["w1 w2", "w3 w4"] c1_timeline c1_buffered c1_chunks
  have hres := process_file_eval c1client c1an c1settings c1text c1firstCheckpoint c1tl 1
    ["w1 w2", "w3 w4"] c1_timeline c1_buffered c1_chunks
  have k1 : c1firstCheckpoint.map Metadata.processed_chunks = some 1 := by
    simp only [c1firstCheckpoint, c1fullRun, hfull]
    decide
  have k2 : c1firstCheckpoint.map (fun m => m.scenes.map sceneKey)
      = some [("scene_0_0", "PA")] := by
    simp only [c1firstCheckpoint, c1fullRun, hfull]
    decide
  have k3 : resultKeys c1fullRun = [("scene_0_0", "PA")] := by
    simp only [c1fullRun, hfull]
    decide
  have k4 : resultKeys c1resumedRun = [("scene_1_0", "PB")] := by
    show resultKeys (process_file c1client c1an c1settings c1text c1firstCheckpoint) = _
    rw [hres]
    simp only [c1firstCheckpoint, c1fullRun, hfull]
    decide
  exact ⟨k1, k2, k3, k4, by rw [k3, k4]; decide⟩
